import Mathlib

/-!
# Verification of the territories-game action engine

A shallow embedding of the action-processing and combat-resolution engine of
the territories-game repository: the combat resolver (attackCalculation in
pkg/actions/attack.go), the holding ledger (UpdateHoldingArmySize in
pkg/actions/util.go), territory resolution (Config.ResolveTerritory in
pkg/config), and the five action handlers (join, color, raise, move, attack),
together with proofs about them.

Database state (the nations and holdings tables of pkg/db/provision.sql) is
modelled as lists of rows; SQL reads and writes are modelled by the
corresponding list operations, and a transaction that fails is modelled by
returning an error without a new state (the code wraps every multi-statement
mutation in a transaction with a deferred rollback, so an error leaves the
store unchanged).
-/

namespace TerritoriesGame

/-- A territory record from the game configuration (pkg/config, type
Territory: abbreviation, name, aliases, neighbors). -/
structure Territory where
  abbreviation : String
  name : String
  aliases : List String
  neighbors : List String
deriving DecidableEq

/-- The fields of the game configuration (pkg/config, type Config) consumed
by the action engine: DoCounterattack, InitialArmies, MaxArmiesPerTerritory,
UnclaimedTerritoriesHave1Army and the territory list.  The file-path, logging
and turn-management fields play no part in action processing and are
omitted. -/
structure Config where
  doCounterattack : Bool
  initialArmies : Int
  maxArmiesPerTerritory : Int
  unclaimedTerritoriesHave1Army : Bool
  territories : List Territory
deriving DecidableEq

/-- A row of the nations table: country_name, player and color (all subject
to uniqueness constraints in provision.sql).  The surrogate id is dropped:
the code only ever addresses a nation through its unique player or
country_name, so those serve as the key. -/
structure Nation where
  countryName : String
  player : String
  color : String
deriving DecidableEq

/-- A row of the holdings table as seen through the v_nation_holdings view:
the territory abbreviation (unique), the owning nation identified by its
player string (the view joins holdings to nations), and the army size. -/
structure Holding where
  territory : String
  player : String
  armySize : Int
deriving DecidableEq

/-- The persisted game state: the nations and holdings tables. -/
structure GameState where
  nations : List Nation
  holdings : List Holding
deriving DecidableEq

/-- The error taxonomy of the actions package (pkg/actions) plus the
store-level constraint violations of provision.sql that the handlers
translate or pass through. -/
inductive ActionErr where
  | missingUser
  | userNotRegistered
  | noTargetTerritory
  | unrecognizedTerritory
  | playerAlreadyJoined
  | nationAlreadyJoined
  | territoryAlreadyOccupied
  | colorInUse
  | friendlyFire
  | notNeighboring
  | noAttackingArmies
  | noDefendingArmies
  | invalidForceSize
  | noDefendingNation
  | noArmiesToRaise
  | maxArmiesReached
  | noArmiesToMove
  | notEnoughArmies
  | notOwnedByPlayer
  | moveExceedsMax
  | uniqueViolation
  | checkViolation
  | notImplemented
deriving DecidableEq

/-! ## Combat resolver (attackCalculation, pkg/actions/attack.go) -/

/-- math.Floor(0.5*float64(x) + float64(m)) for an integer die roll x and an
integer m.  The float64 arithmetic is exact here (both summands and the sum
are exactly representable for the magnitudes involved), so the Go expression
equals the floor of the exact rational value x/2 + m; that floor is x/2 + m
with floor division, proven in floorHalf_eq_ratFloor below. -/
def floorHalf (x m : Int) : Int :=
  x / 2 + m

/-- floorHalf is the floor of the exact rational value x/2 + m (Int division
is floor division for a positive divisor). -/
theorem floorHalf_eq_ratFloor (x m : Int) :
    floorHalf x m = ⌊(x : ℚ) / 2 + (m : ℚ)⌋ := by
  rw [Int.floor_add_int]
  have h := Rat.floor_intCast_div_natCast x 2
  norm_num at h ⊢
  rw [floorHalf, h]

/-- The combat resolver attackCalculation (pkg/actions/attack.go lines
193-219) with the die roll x injected as a parameter: the source draws
x := randInt(20) + 1, and randInt wraps rand.Intn(20), whose result lies in
[0, 19].  The Go float64 arithmetic is exact for the values involved:
math.Floor(0.5*float64(x) + float64(..)) is floorHalf above, and after the
floor every value is an integer, so the float64 comparisons, negation,
math.Min and math.Max coincide with the integer operations. -/
def attackCalculation (attacking defending x : Int) :
    Except ActionErr (Int × Int) :=
  if attacking ≤ 0 ∨ defending ≤ 0 then .error .invalidForceSize
  else
    let success := x > (defending - attacking) * 2 + 10
    let losses : Int :=
      if success then
        let l := floorHalf x (attacking - defending - 5)
        let l := if l = 0 then 1 else l
        min l defending
      else
        let l := -floorHalf x (defending - attacking - 5)
        let l := if x = 1 ∧ 0 ≤ l then -1 else l
        max l (-attacking)
    .ok (x, losses)

instance {ε α : Type} [DecidableEq ε] [DecidableEq α] :
    DecidableEq (Except ε α) := fun x y =>
  match x, y with
  | .ok a, .ok b =>
    if h : a = b then isTrue (by rw [h])
    else isFalse (by intro hc; cases hc; exact h rfl)
  | .error a, .error b =>
    if h : a = b then isTrue (by rw [h])
    else isFalse (by intro hc; cases hc; exact h rfl)
  | .ok _, .error _ => isFalse (by intro hc; cases hc)
  | .error _, .ok _ => isFalse (by intro hc; cases hc)

/-- The loss value of the combat resolver, written from the specification's
words (§4.3) with the amendment the code forces on the failure branch:
on success the loss is floor(0.5*dieRoll + attackingForce - defendingForce
- 5), forced to 1 if it is exactly 0, and clamped to at most defendingForce;
on failure it is -floor(0.5*dieRoll + defendingForce - attackingForce - 5),
forced to -1 if dieRoll is 1 and the value is nonnegative, and clamped below
at -attackingForce — the failure value is not always negative: it is zero or
positive whenever the floored quantity is nonpositive and dieRoll is not
1. -/
def resolveSpecLoss (attackingForce defendingForce dieRoll : Int) : Int :=
  if dieRoll > (defendingForce - attackingForce) * 2 + 10 then
    min (if floorHalf dieRoll (attackingForce - defendingForce - 5) = 0 then 1
      else floorHalf dieRoll (attackingForce - defendingForce - 5))
      defendingForce
  else
    max (if dieRoll = 1 ∧ 0 ≤ -floorHalf dieRoll (defendingForce - attackingForce - 5)
      then -1
      else -floorHalf dieRoll (defendingForce - attackingForce - 5))
      (-attackingForce)

/-- On valid force sizes the resolver returns the die roll and the
branch-selected loss value. -/
theorem attackCalculation_ok {a b : Int} (x : Int) (ha : 0 < a) (hb : 0 < b) :
    attackCalculation a b x = .ok (x, resolveSpecLoss a b x) := by
  rw [attackCalculation, if_neg (by omega), resolveSpecLoss]

/-- On a successful roll the loss is at least 1 and at most the defending
force. -/
theorem resolveSpecLoss_success_bounds {a b x : Int} (hb : 0 < b)
    (hs : x > (b - a) * 2 + 10) :
    1 ≤ resolveSpecLoss a b x ∧ resolveSpecLoss a b x ≤ b := by
  rw [resolveSpecLoss, if_pos hs]
  have hfl : 0 ≤ floorHalf x (a - b - 5) := by
    rw [floorHalf]; omega
  rcases le_total (if floorHalf x (a - b - 5) = 0 then 1 else floorHalf x (a - b - 5)) b
    with h | h
  · rw [min_eq_left h]
    constructor
    · split <;> omega
    · exact h
  · rw [min_eq_right h]
    omega

/-- On a failed roll the loss is bounded below by minus the attacking
force. -/
theorem resolveSpecLoss_failure_lower {a b x : Int} (hs : ¬ x > (b - a) * 2 + 10) :
    -a ≤ resolveSpecLoss a b x := by
  rw [resolveSpecLoss, if_neg hs]
  exact le_max_right _ _

/-- C1 counterexample: at attacking = 1, defending = 1 and die roll 10 the
roll is a failure (10 is not greater than (1-1)*2+10), yet the returned loss
is 0, not a negative value — the claim's failure branch ("returned as a
negative value") does not hold of attackCalculation. -/
theorem c1_failure_loss_not_negative :
    attackCalculation 1 1 10 = .ok (10, 0) ∧ ¬ (10 : Int) > (1 - 1) * 2 + 10 ∧
      ¬ (0 : Int) < 0 := by
  refine ⟨by decide, by decide, by decide⟩

/-- C1 (amended): for positive force sizes the combat resolver returns the
injected die roll together with the loss computed exactly by the specified
formulas, where on failure the value -floor(0.5*x + b - a - 5) (forced to -1
when x = 1 and it is nonnegative) is clamped below at -a but is not
guaranteed negative: it is zero or positive whenever the floored quantity is
nonpositive and x is not 1; invalid force sizes fail with the
invalid-force-size error. -/
theorem c1_combat_resolver_formula (a b x : Int) :
    (0 < a → 0 < b → attackCalculation a b x = .ok (x, resolveSpecLoss a b x)) ∧
      (a ≤ 0 ∨ b ≤ 0 → attackCalculation a b x = .error .invalidForceSize) := by
  constructor
  · intro ha hb
    exact attackCalculation_ok x ha hb
  · intro h
    rw [attackCalculation, if_pos h]

theorem c1_combat_resolver_formula_witness :
    attackCalculation 3 2 17 = .ok (17, resolveSpecLoss 3 2 17) ∧
      attackCalculation 0 2 17 = .error .invalidForceSize := by
  refine ⟨((c1_combat_resolver_formula 3 2 17).1 (by decide) (by decide)),
    ((c1_combat_resolver_formula 0 2 17).2 (by decide))⟩

/-- C2 counterexample: at attacking = 5, defending = 1 the die roll 2 is a
failure, and the resolver returns the positive loss 8, which exceeds the
defending force 1 (and the attacking force 5) — the claimed bound "at most b
when the loss is positive" fails. -/
theorem c2_loss_bound_violated :
    attackCalculation 5 1 2 = .ok (2, 8) ∧ ¬ (8 : Int) ≤ 1 ∧ ¬ (8 : Int) ≤ 5 := by
  refine ⟨by decide, by decide, by decide⟩

/-- C2 (amended): for positive force sizes and a die roll in [1, 20] (the
range of randInt(20) + 1), the resolver returns that die roll, the loss is
never below -a (so a negative loss has magnitude at most the attacking
force), and on a successful roll the loss is positive and at most the
defending force; on a failed roll the loss may be zero or positive and is
not bounded by the defending force. -/
theorem c2_dieroll_and_loss_bounds (a b x : Int) (ha : 0 < a) (hb : 0 < b)
    (hx1 : 1 ≤ x) (hx20 : x ≤ 20) :
    ∃ L : Int, attackCalculation a b x = .ok (x, L) ∧
      1 ≤ x ∧ x ≤ 20 ∧ -a ≤ L ∧ (L < 0 → -L ≤ a) ∧
      (x > (b - a) * 2 + 10 → 1 ≤ L ∧ L ≤ b) := by
  refine ⟨resolveSpecLoss a b x, attackCalculation_ok x ha hb, hx1, hx20, ?_, ?_, ?_⟩
  · by_cases hs : x > (b - a) * 2 + 10
    · have := (resolveSpecLoss_success_bounds hb hs).1
      omega
    · exact resolveSpecLoss_failure_lower hs
  · intro hneg
    by_cases hs : x > (b - a) * 2 + 10
    · have := (resolveSpecLoss_success_bounds hb hs).1
      omega
    · have := resolveSpecLoss_failure_lower (a := a) (b := b) (x := x) hs
      omega
  · intro hs
    exact resolveSpecLoss_success_bounds hb hs

/-! ## Territory resolution (Config.ResolveTerritory, pkg/config) -/

/-- strings.ToLower restricted to ASCII case folding (Char.toLower lowers
exactly the basic latin letters, which is the scope of the claims about the
resolver). -/
def lowerStr (s : String) : String :=
  ⟨s.data.map Char.toLower⟩

/-- Whether a query matches a territory in ResolveTerritory: the lowercased
query equals the lowercased abbreviation or name, or some lowercased alias.
The loop body checks abbreviation/name first and then the aliases, but both
paths return the same territory, so one disjunctive test is equivalent. -/
def matchesQuery (t : Territory) (query : String) : Bool :=
  lowerStr t.abbreviation == lowerStr query || lowerStr query == lowerStr t.name ||
    t.aliases.any fun al => lowerStr query == lowerStr al

/-- Config.ResolveTerritory (pkg/config/config.go lines 57-76): scan the
configured territories in order and return the first whose abbreviation,
name or alias matches the query case-insensitively; nil and an error when
none matches. -/
def resolveTerritory (cfg : Config) (query : String) : Option Territory :=
  cfg.territories.find? fun t => matchesQuery t query

/-- Territory.IsNeighboring: resolve the query, then test membership of the
resolved abbreviation in the receiver's neighbor list; a resolution failure
is an error (none here). -/
def isNeighboring (cfg : Config) (t : Territory) (query : String) : Option Bool :=
  (resolveTerritory cfg query).map fun found => t.neighbors.contains found.abbreviation

/-! ## State lookups (reads through v_nation_holdings and nations) -/

/-- SELECT .. FROM v_nation_holdings WHERE territory = ? (territory is
unique, so the first row is the row). -/
def findHolding (s : GameState) (terr : String) : Option Holding :=
  s.holdings.find? fun h => h.territory == terr

/-- SELECT .. FROM v_nation_holdings WHERE territory = ? AND player = ?. -/
def findHoldingOf (s : GameState) (terr player : String) : Option Holding :=
  s.holdings.find? fun h => h.territory == terr && h.player == player

/-- SELECT COUNT(*) FROM v_nation_holdings WHERE player = ?
(PlayerHoldings, pkg/actions/util.go). -/
def playerHoldingsCount (s : GameState) (player : String) : Nat :=
  (s.holdings.filter fun h => h.player == player).length

/-- Whether a nation row with the given player exists. -/
def hasNation (s : GameState) (player : String) : Bool :=
  s.nations.any fun n => n.player == player

/-- ValidateUser (pkg/actions/util.go lines 13-41): empty user is
missing-user, an absent nations row is user-not-registered. -/
def validateUser (s : GameState) (user : String) : Option ActionErr :=
  if user = "" then some .missingUser
  else if hasNation s user then none
  else some .userNotRegistered

/-! ## Holding ledger (UpdateHoldingArmySize, pkg/actions/util.go) -/

/-- UpdateHoldingArmySize (pkg/actions/util.go lines 69-156): look up the
owning player of the territory (no-defending-nation error when the view has
no row), update the army size in place when the new size is positive,
otherwise delete the holding row; when the size is exactly 0 and
deleteNationIfNoTerritories is set, delete the nation as well if the owner
has no remaining holdings.  The returned Bool is whether a nation was
removed; the version of the function under pkg/actions returns only an
error, but its callers in attack.go and move.go bind a (bool, error) pair,
so the flag is modelled from the spec: "Returns whether a nation was
removed, so callers can report it." -/
def updateHoldingArmySize (s : GameState) (territory : String) (size : Int)
    (deleteNationIfNoTerritories : Bool) : Except ActionErr (GameState × Bool) :=
  match findHolding s territory with
  | none => .error .noDefendingNation
  | some h =>
    let defendingNationPlayer := h.player
    if 0 < size then
      .ok (⟨s.nations, s.holdings.map fun h2 =>
        if h2.territory == territory then { h2 with armySize := size } else h2⟩, false)
    else
      let holdings2 := s.holdings.filter fun h2 => !(h2.territory == territory)
      if size = 0 ∧ deleteNationIfNoTerritories then
        if (holdings2.filter fun h2 => h2.player == defendingNationPlayer).length = 0 then
          .ok (⟨s.nations.filter fun n => !(n.player == defendingNationPlayer), holdings2⟩,
            true)
        else .ok (⟨s.nations, holdings2⟩, false)
      else .ok (⟨s.nations, holdings2⟩, false)

/-! ## Row inserts with the constraints of provision.sql -/

/-- INSERT INTO nations (country_name, player, color): CHECK constraints on
the name and player lengths and the color length (6 or 3), and uniqueness of
country_name, player and color. -/
def insertNation (s : GameState) (countryName player color : String) :
    Except ActionErr GameState :=
  if countryName = "" ∨ player = "" then .error .checkViolation
  else if ¬ (color.length = 6 ∨ color.length = 3) then .error .checkViolation
  else if s.nations.any fun n =>
      n.countryName == countryName || n.player == player || n.color == color then
    .error .uniqueViolation
  else .ok ⟨s.nations ++ [⟨countryName, player, color⟩], s.holdings⟩

/-- INSERT INTO holdings (nation_id, territory, army_size) with nation_id
selected by player: the NOT NULL constraint fires when the player has no
nation, territory is unique, and army_size must be positive. -/
def insertHolding (s : GameState) (player territory : String) (armySize : Int) :
    Except ActionErr GameState :=
  if ¬ hasNation s player then .error .checkViolation
  else if s.holdings.any fun h => h.territory == territory then .error .uniqueViolation
  else if armySize ≤ 0 then .error .checkViolation
  else .ok ⟨s.nations, s.holdings ++ [⟨territory, player, armySize⟩]⟩

/-! ## Action handlers -/

/-- An apostrophe, as a string. -/
def apos : String :=
  String.singleton (Char.ofNat 39)

/-- JoinAction.DoAction (the current join handler): default the nation name,
require and resolve the territory, reject an already-joined player or a
taken nation name, then insert the nation (with the randomly generated
color, injected here as a parameter) and its initial holding with army size
Config.InitialArmies inside one transaction; a uniqueness violation on the
holding insert is translated to territory-already-occupied. -/
def joinAction (cfg : Config) (s : GameState) (user nation territory color : String) :
    Except ActionErr GameState :=
  let nation := if nation = "" then user ++ apos ++ "s Nation" else nation
  if territory = "" then .error .noTargetTerritory
  else match resolveTerritory cfg territory with
  | none => .error .unrecognizedTerritory
  | some joinTerritory =>
    if 0 < (s.nations.filter fun n => n.player == user).length then
      .error .playerAlreadyJoined
    else if 0 < (s.nations.filter fun n => n.countryName == nation).length then
      .error .nationAlreadyJoined
    else match insertNation s nation user color with
      | .error e => .error e
      | .ok s1 =>
        match insertHolding s1 user joinTerritory.abbreviation cfg.initialArmies with
        | .error .uniqueViolation => .error .territoryAlreadyOccupied
        | .error e => .error e
        | .ok s2 => .ok s2

/-- ColorAction.DoAction: validate the user, then UPDATE nations SET color
WHERE player; a uniqueness violation (another nation already has the color)
is translated to color-in-use.  The csscolorparser parse and normalization
are external; colorHex is the normalized 6-hex-digit result. -/
def colorAction (s : GameState) (user colorHex : String) :
    Except ActionErr GameState :=
  match validateUser s user with
  | some e => .error e
  | none =>
    if s.nations.any fun n => n.color == colorHex && !(n.player == user) then
      .error .colorInUse
    else .ok ⟨s.nations.map fun n =>
      if n.player == user then { n with color := colorHex } else n, s.holdings⟩

/-- RaiseAction.DoAction (pkg/actions/raise.go lines 42-100): validate the
user, require and resolve the territory, read the player's army size there
(no-armies-to-raise when absent), reject when it equals
Config.MaxArmiesPerTerritory, otherwise increment by one through the holding
ledger with cascade deletion off. -/
def raiseAction (cfg : Config) (s : GameState) (user territory : String) :
    Except ActionErr GameState :=
  match validateUser s user with
  | some e => .error e
  | none =>
    if territory = "" then .error .noTargetTerritory
    else match resolveTerritory cfg territory with
    | none => .error .unrecognizedTerritory
    | some t =>
      match findHoldingOf s t.abbreviation user with
      | none => .error .noArmiesToRaise
      | some h =>
        if h.armySize = cfg.maxArmiesPerTerritory then .error .maxArmiesReached
        else match updateHoldingArmySize s t.abbreviation (h.armySize + 1) false with
          | .error e => .error e
          | .ok (s2, _) => .ok s2

/-- The fields of AttackActionResult: die roll, pre-battle sizes, the Losses
field (set to the defender losses, hence 0 on the attacker-loss branch, as
in the source) and whether a nation was removed. -/
structure AttackResult where
  dieRoll : Int
  attacking : Int
  defending : Int
  losses : Int
  nationRemoved : Bool
deriving DecidableEq

/-- AttackAction.DoAction followed by doNormalAttack (pkg/actions/attack.go):
validate the user, resolve both territories, reject friendly fire and
non-neighbors, read the attacker's army size at the attacking territory
(owned by the user) and the defender's at the defending territory, run
attackCalculation, and apply the loss through the holding ledger with
cascade deletion on: to the defending holding when losses are positive,
otherwise to the attacking holding (math.Abs of a nonpositive value is its
negation, and math.Min on the integer-valued floats is integer min). -/
def attackAction (cfg : Config) (s : GameState) (user attackingT defendingT : String)
    (x : Int) : Except ActionErr (GameState × AttackResult) :=
  match validateUser s user with
  | some e => .error e
  | none =>
    match resolveTerritory cfg attackingT with
    | none => .error .unrecognizedTerritory
    | some atk =>
      match resolveTerritory cfg defendingT with
      | none => .error .unrecognizedTerritory
      | some dfd =>
        if atk.abbreviation = dfd.abbreviation then .error .friendlyFire
        else match isNeighboring cfg atk defendingT with
        | none => .error .unrecognizedTerritory
        | some false => .error .notNeighboring
        | some true =>
          if cfg.doCounterattack then .error .notImplemented
          else
            let attacking := match findHoldingOf s atk.abbreviation user with
              | none => 0
              | some h => h.armySize
            if attacking = 0 then .error .noAttackingArmies
            else
              let defending := match findHolding s dfd.abbreviation with
                | none => 0
                | some h => h.armySize
              if defending = 0 then .error .noDefendingArmies
              else match attackCalculation attacking defending x with
              | .error e => .error e
              | .ok (roll, losses) =>
                if 0 < losses then
                  let defenderLosses := min losses defending
                  match updateHoldingArmySize s dfd.abbreviation
                      (defending - defenderLosses) true with
                  | .error e => .error e
                  | .ok (s2, removed) =>
                    .ok (s2, ⟨roll, attacking, defending, defenderLosses, removed⟩)
                else
                  let attackerLosses := min (-losses) attacking
                  match updateHoldingArmySize s atk.abbreviation
                      (attacking - attackerLosses) true with
                  | .error e => .error e
                  | .ok (s2, removed) =>
                    .ok (s2, ⟨roll, attacking, defending, 0, removed⟩)

/-- The fields of MoveActionResult relevant to state: whether the move
failed to establish the destination (newDestinationArmies == 0) and whether
a nation was removed by the source update. -/
structure MoveResult where
  failedMove : Bool
  nationRemoved : Bool
deriving DecidableEq

/-- MoveAction.DoAction (pkg/actions/move.go lines 66-214): destination must
be nonempty and differ from the source; both territories must resolve; the
adjacency check is performed but a negative answer is only logged, not fatal
(the error is overwritten), so it does not gate the move; the source holding
must exist, hold at least the requested count (a nonpositive count means
move all), and belong to the acting player; an occupied destination of
another player is territory-already-occupied; the destination total must not
exceed the cap.  Then, in one transaction: against an unclaimed destination
with the garrison flag set, attackCalculation(armies, 1) runs with die roll
x and negative losses reduce the arriving force; a positive arriving force
is inserted (unclaimed) or added through the holding ledger; finally the
source is reduced by the moved count with cascade deletion on. -/
def moveAction (cfg : Config) (s : GameState) (user src dest : String)
    (armies x : Int) : Except ActionErr (GameState × MoveResult) :=
  if dest = "" ∨ src = dest then .error .noTargetTerritory
  else match resolveTerritory cfg src with
  | none => .error .unrecognizedTerritory
  | some st =>
    match resolveTerritory cfg dest with
    | none => .error .unrecognizedTerritory
    | some dt =>
      match isNeighboring cfg st dest with
      | none => .error .unrecognizedTerritory
      | some _neighboring =>
        match findHolding s st.abbreviation with
        | none => .error .noArmiesToMove
        | some srcHolding =>
          let armiesInSource := srcHolding.armySize
          let fromPlayer := srcHolding.player
          if 0 < armies ∧ armiesInSource < armies then .error .notEnoughArmies
          else
            let armies := if armies ≤ 0 then armiesInSource else armies
            let armiesInDest := match findHolding s dt.abbreviation with
              | none => 0
              | some h => h.armySize
            let destinationPlayer := match findHolding s dt.abbreviation with
              | none => ""
              | some h => h.player
            if ¬ fromPlayer = user then .error .notOwnedByPlayer
            else if 0 < armiesInDest ∧ ¬ destinationPlayer = user then
              .error .territoryAlreadyOccupied
            else if cfg.maxArmiesPerTerritory < armiesInDest + armies then
              .error .moveExceedsMax
            else
              match (if armiesInDest = 0 ∧ cfg.unclaimedTerritoriesHave1Army then
                  (attackCalculation armies 1 x).map fun r =>
                    if r.2 < 0 then armies + r.2 else armies
                else .ok (armiesInDest + armies)) with
              | .error e => .error e
              | .ok newDest =>
                match (if armiesInDest = 0 ∧ 0 < newDest then
                    insertHolding s user dt.abbreviation newDest
                  else if 0 < newDest then
                    (updateHoldingArmySize s dt.abbreviation newDest false).map
                      fun r => r.1
                  else .ok s) with
                | .error e => .error e
                | .ok s1 =>
                  match updateHoldingArmySize s1 st.abbreviation
                      (armiesInSource - armies) true with
                  | .error e => .error e
                  | .ok (s2, nationRemoved) =>
                    .ok (s2, ⟨newDest = 0, nationRemoved⟩)

/-- The closed sum of the five action kinds (the design's tagged variant),
with the injected random values (die roll, generated color) as explicit
fields. -/
inductive GameAction where
  | join (user nation territory color : String)
  | setColor (user colorHex : String)
  | raise (user territory : String)
  | move (user src dest : String) (armies dieRoll : Int)
  | attack (user atkT dfdT : String) (dieRoll : Int)
deriving DecidableEq

/-- Dispatch an action to its handler and keep the committed state. -/
def applyAction (cfg : Config) (s : GameState) : GameAction → Except ActionErr GameState
  | .join u n t c => joinAction cfg s u n t c
  | .setColor u c => colorAction s u c
  | .raise u t => raiseAction cfg s u t
  | .move u src dest armies roll => (moveAction cfg s u src dest armies roll).map fun r => r.1
  | .attack u a d roll => (attackAction cfg s u a d roll).map fun r => r.1

/-- The final visible state of a transaction: the new state on commit, the
unchanged state on rollback. -/
def commitState (s : GameState) (r : Except ActionErr GameState) : GameState :=
  match r with
  | .ok s2 => s2
  | .error _ => s

/-- The holdings invariants of the data model: every holding's army size is
strictly positive and at most the configured per-territory cap, and
territory codes are unique across holdings. -/
def Invariant (cfg : Config) (s : GameState) : Prop :=
  (∀ h ∈ s.holdings, 0 < h.armySize ∧ h.armySize ≤ cfg.maxArmiesPerTerritory) ∧
    s.holdings.Pairwise fun h1 h2 => h1.territory ≠ h2.territory

instance (cfg : Config) (s : GameState) : Decidable (Invariant cfg s) := by
  unfold Invariant
  infer_instance

/-! ## List lemmas about holdings updates -/

/-- The in-place army-size update of a row keeps its territory. -/
theorem territory_update (terr : String) (size : Int) (h2 : Holding) :
    ((if h2.territory == terr then { h2 with armySize := size } else h2) : Holding).territory
      = h2.territory := by
  split <;> rfl

/-- After the UPDATE of a territory, looking that territory up yields the
found row with its army size replaced. -/
theorem find?_update_self {l : List Holding} {terr : String} {h : Holding}
    (hf : l.find? (fun h2 => h2.territory == terr) = some h) (size : Int) :
    (l.map fun h2 => if h2.territory == terr then { h2 with armySize := size } else h2).find?
      (fun h2 => h2.territory == terr) = some { h with armySize := size } := by
  have hcomp : ((fun h2 : Holding => h2.territory == terr) ∘ fun h2 =>
      if h2.territory == terr then { h2 with armySize := size } else h2) =
      fun h2 : Holding => h2.territory == terr := by
    funext h2
    simp only [Function.comp_apply]
    rw [territory_update]
  rw [List.find?_map, hcomp, hf]
  have hp := List.find?_some hf
  simp [hp]
  intro hct
  exact absurd (by simpa using hp) hct

/-- The UPDATE of one territory leaves lookups of any other territory
unchanged. -/
theorem find?_update_other {l : List Holding} {terr t2 : String} (hne : t2 ≠ terr)
    (size : Int) :
    (l.map fun h2 => if h2.territory == terr then { h2 with armySize := size } else h2).find?
      (fun h2 => h2.territory == t2) = l.find? fun h2 => h2.territory == t2 := by
  have hcomp : ((fun h2 : Holding => h2.territory == t2) ∘ fun h2 =>
      if h2.territory == terr then { h2 with armySize := size } else h2) =
      fun h2 : Holding => h2.territory == t2 := by
    funext h2
    simp only [Function.comp_apply]
    rw [territory_update]
  rw [List.find?_map, hcomp]
  cases hf2 : l.find? fun h2 => h2.territory == t2 with
  | none => rfl
  | some h =>
    have hp := List.find?_some hf2
    have hht : h.territory = t2 := by simpa using hp
    have hterr : (h.territory == terr) = false := by
      rw [hht]
      simpa using hne
    simp [hterr]
    intro hct
    rw [hht] at hct
    exact absurd hct hne

/-- After the DELETE of a territory, looking it up yields nothing. -/
theorem find?_filter_self (l : List Holding) (terr : String) :
    (l.filter fun h2 => !(h2.territory == terr)).find? (fun h2 => h2.territory == terr)
      = none := by
  rw [List.find?_eq_none]
  intro x hx
  have := (List.mem_filter.1 hx).2
  simp at this
  simp [this]

/-- The DELETE of one territory leaves lookups of any other territory
unchanged. -/
theorem find?_filter_other {l : List Holding} {terr t2 : String} (hne : t2 ≠ terr) :
    (l.filter fun h2 => !(h2.territory == terr)).find? (fun h2 => h2.territory == t2)
      = l.find? fun h2 => h2.territory == t2 := by
  induction l with
  | nil => simp
  | cons a l ih =>
    rw [List.filter_cons]
    by_cases ha : (a.territory == t2) = true
    · have hat : a.territory = t2 := by simpa using ha
      have hterr : (a.territory == terr) = false := by
        rw [hat]
        simpa using hne
      simp only [hterr, Bool.not_false, if_pos]
      rw [List.find?_cons, List.find?_cons]
      simp [ha]
    · have ha2 : (a.territory == t2) = false := by
        simpa using ha
      by_cases hterr : (a.territory == terr) = true
      · simp only [hterr, Bool.not_true, if_neg]
        rw [List.find?_cons]
        simp only [ha2]
        simpa using ih
      · have hterr2 : (a.territory == terr) = false := by
          simpa using hterr
        simp only [hterr2, Bool.not_false, if_pos]
        rw [List.find?_cons, List.find?_cons]
        simp only [ha2]
        exact ih

/-! ## The testing configuration (GetTestingConfig, pkg/config/config.go) -/

/-- The territory list of the testing configuration. -/
def testTerritories : List Territory :=
  [⟨"CA", "California", [], ["NV", "OR", "AZ"]⟩,
   ⟨"NV", "Nevada", [], ["CA", "OR", "UT"]⟩,
   ⟨"OR", "Oregon", [], ["CA", "NV"]⟩,
   ⟨"AZ", "Arizona", [], ["CA", "NV"]⟩,
   ⟨"UT", "Utah", [], ["NV", "AZ"]⟩]

/-- The testing configuration: counterattack off, 3 initial armies, cap 5,
no garrison on unclaimed territories, five US-state territories. -/
def testingConfig : Config :=
  ⟨false, 3, 5, false, testTerritories⟩

/-! ## Inversion lemmas for the mutation primitives -/

/-- A successful holding-ledger update came from an existing holding and
produced either the in-place update (positive size) or the row deletion
(nonpositive size), with the nations either untouched or, on cascade,
filtered by the owner. -/
theorem updateHolding_inv {s : GameState} {terr : String} {size : Int} {casc : Bool}
    {s2 : GameState} {r : Bool}
    (hok : updateHoldingArmySize s terr size casc = .ok (s2, r)) :
    ∃ h, findHolding s terr = some h ∧
      ((0 < size ∧
          s2.holdings = (s.holdings.map fun h2 =>
            if h2.territory == terr then { h2 with armySize := size } else h2) ∧
          s2.nations = s.nations ∧ r = false) ∨
        (size ≤ 0 ∧
          s2.holdings = s.holdings.filter (fun h2 => !(h2.territory == terr)) ∧
          (s2.nations = s.nations ∨
            s2.nations = s.nations.filter fun n => !(n.player == h.player)))) := by
  cases hf : findHolding s terr with
  | none =>
    rw [updateHoldingArmySize, hf] at hok
    exact Except.noConfusion hok
  | some h =>
    refine ⟨h, rfl, ?_⟩
    simp only [updateHoldingArmySize, hf] at hok
    by_cases hsz : 0 < size
    · rw [if_pos hsz] at hok
      have := Except.ok.inj hok
      left
      exact ⟨hsz, (congrArg GameState.holdings (congrArg Prod.fst this)).symm,
        (congrArg GameState.nations (congrArg Prod.fst this)).symm,
        (congrArg Prod.snd this).symm⟩
    · rw [if_neg hsz] at hok
      right
      refine ⟨by omega, ?_⟩
      by_cases hz : size = 0 ∧ casc = true
      · rw [if_pos hz] at hok
        by_cases hcount : ((s.holdings.filter fun h2 => !(h2.territory == terr)).filter
            fun h2 => h2.player == h.player).length = 0
        · rw [if_pos hcount] at hok
          have := Except.ok.inj hok
          exact ⟨(congrArg GameState.holdings (congrArg Prod.fst this)).symm,
            .inr (congrArg GameState.nations (congrArg Prod.fst this)).symm⟩
        · rw [if_neg hcount] at hok
          have := Except.ok.inj hok
          exact ⟨(congrArg GameState.holdings (congrArg Prod.fst this)).symm,
            .inl (congrArg GameState.nations (congrArg Prod.fst this)).symm⟩
      · rw [if_neg hz] at hok
        have := Except.ok.inj hok
        exact ⟨(congrArg GameState.holdings (congrArg Prod.fst this)).symm,
          .inl (congrArg GameState.nations (congrArg Prod.fst this)).symm⟩

/-- A successful holdings insert required an owning nation, a fresh
territory and a positive army size, and appended exactly one row. -/
theorem insertHolding_inv {s : GameState} {p terr : String} {a : Int} {s2 : GameState}
    (hok : insertHolding s p terr a = .ok s2) :
    hasNation s p = true ∧ (s.holdings.any fun h => h.territory == terr) = false ∧
      0 < a ∧ s2 = ⟨s.nations, s.holdings ++ [⟨terr, p, a⟩]⟩ := by
  rw [insertHolding] at hok
  by_cases h1 : hasNation s p
  · rw [if_neg (by simp [h1])] at hok
    by_cases h2 : (s.holdings.any fun h => h.territory == terr) = true
    · rw [if_pos h2] at hok
      exact Except.noConfusion hok
    · rw [if_neg h2] at hok
      by_cases h3 : a ≤ 0
      · rw [if_pos h3] at hok
        exact Except.noConfusion hok
      · rw [if_neg h3] at hok
        exact ⟨h1, by simpa using h2, by omega, (Except.ok.inj hok).symm⟩
  · rw [if_pos (by simpa using h1)] at hok
    exact Except.noConfusion hok

/-- A successful nations insert appended one nation and left the holdings
unchanged. -/
theorem insertNation_inv {s : GameState} {cn p c : String} {s2 : GameState}
    (hok : insertNation s cn p c = .ok s2) :
    s2 = ⟨s.nations ++ [⟨cn, p, c⟩], s.holdings⟩ ∧
      (s.nations.any fun n => n.countryName == cn || n.player == p || n.color == c)
        = false := by
  rw [insertNation] at hok
  by_cases h1 : cn = "" ∨ p = ""
  · rw [if_pos h1] at hok
    exact Except.noConfusion hok
  · rw [if_neg h1] at hok
    by_cases h2 : ¬ (c.length = 6 ∨ c.length = 3)
    · rw [if_pos h2] at hok
      exact Except.noConfusion hok
    · rw [if_neg h2] at hok
      by_cases h3 : (s.nations.any fun n =>
          n.countryName == cn || n.player == p || n.color == c) = true
      · rw [if_pos h3] at hok
        exact Except.noConfusion hok
      · rw [if_neg h3] at hok
        exact ⟨(Except.ok.inj hok).symm, by simpa using h3⟩

/-- A successful color change leaves the holdings unchanged. -/
theorem colorAction_inv {s : GameState} {u c : String} {s2 : GameState}
    (hok : colorAction s u c = .ok s2) : s2.holdings = s.holdings := by
  rw [colorAction] at hok
  cases hv : validateUser s u with
  | some e =>
    rw [hv] at hok
    exact Except.noConfusion hok
  | none =>
    rw [hv] at hok
    by_cases h1 : (s.nations.any fun n => n.color == c && !(n.player == u)) = true
    · rw [if_pos h1] at hok
      exact Except.noConfusion hok
    · rw [if_neg h1] at hok
      exact (congrArg GameState.holdings (Except.ok.inj hok)).symm

/-- ValidateUser succeeds exactly on a nonempty, registered player. -/
theorem validateUser_none {s : GameState} {u : String} (hu : u ≠ "")
    (hn : hasNation s u = true) : validateUser s u = none := by
  rw [validateUser, if_neg hu, if_pos hn]

/-! ## Invariant preservation for the primitive mutations -/

/-- The in-place update preserves the holdings invariants when the new size
is positive and within the cap. -/
theorem invariant_map_update {cfg : Config} {s : GameState} {terr : String} {size : Int}
    (hinv : Invariant cfg s) (hsz : 0 < size) (hcap : size ≤ cfg.maxArmiesPerTerritory)
    (ns : List Nation) :
    Invariant cfg ⟨ns, s.holdings.map fun h2 =>
      if h2.territory == terr then { h2 with armySize := size } else h2⟩ := by
  obtain ⟨hb, hp⟩ := hinv
  constructor
  · intro h' hmem
    obtain ⟨h2, hm2, heq⟩ := List.mem_map.1 hmem
    subst heq
    by_cases hc : (h2.territory == terr) = true
    · simp only [hc, if_pos]
      exact ⟨hsz, hcap⟩
    · simp only [hc, Bool.false_eq_true, if_false]
      · exact hb h2 hm2
  · rw [List.pairwise_map]
    refine hp.imp ?_
    intro h1 h2 hne
    rwa [territory_update, territory_update]

/-- The row deletion preserves the holdings invariants. -/
theorem invariant_filter {cfg : Config} {s : GameState} (hinv : Invariant cfg s)
    (q : Holding → Bool) (ns : List Nation) :
    Invariant cfg ⟨ns, s.holdings.filter q⟩ := by
  obtain ⟨hb, hp⟩ := hinv
  exact ⟨fun h hmem => hb h (List.mem_filter.1 hmem).1, hp.sublist (List.filter_sublist _)⟩

/-- Appending a fresh, in-bounds holding preserves the holdings
invariants. -/
theorem invariant_append {cfg : Config} {s : GameState} {terr p : String} {a : Int}
    (hinv : Invariant cfg s) (hfresh : (s.holdings.any fun h => h.territory == terr) = false)
    (ha : 0 < a) (hcap : a ≤ cfg.maxArmiesPerTerritory) (ns : List Nation) :
    Invariant cfg ⟨ns, s.holdings ++ [⟨terr, p, a⟩]⟩ := by
  obtain ⟨hb, hp⟩ := hinv
  constructor
  · intro h hmem
    rcases List.mem_append.1 hmem with hm | hm
    · exact hb h hm
    · rcases List.mem_singleton.1 hm with rfl
      exact ⟨ha, hcap⟩
  · rw [List.pairwise_append]
    refine ⟨hp, List.pairwise_singleton _ _, ?_⟩
    intro h1 hm1 h2 hm2
    rcases List.mem_singleton.1 hm2 with rfl
    intro hc
    have hbeq : (h1.territory == terr) = true := by simpa using hc
    have hany : (s.holdings.any fun h => h.territory == terr) = true :=
      List.any_eq_true.2 ⟨h1, hm1, hbeq⟩
    rw [hfresh] at hany
    exact Bool.noConfusion hany

/-- Any successful holding-ledger update whose positive size is within the
cap preserves the holdings invariants. -/
theorem invariant_updateHolding {cfg : Config} {s s2 : GameState} {terr : String}
    {size : Int} {casc : Bool} {r : Bool} (hinv : Invariant cfg s)
    (hcap : 0 < size → size ≤ cfg.maxArmiesPerTerritory)
    (hok : updateHoldingArmySize s terr size casc = .ok (s2, r)) :
    Invariant cfg s2 := by
  obtain ⟨h, hf, hcase⟩ := updateHolding_inv hok
  rcases hcase with ⟨hsz, hh, hn, hr⟩ | ⟨hsz, hh, hn⟩
  · have hkey := @invariant_map_update cfg s terr size hinv hsz (hcap hsz) s2.nations
    rcases s2 with ⟨ns2, hs2⟩
    simp only at hh hn
    rw [hh]
    exact hkey
  · have hkey := invariant_filter hinv (fun h2 => !(h2.territory == terr)) s2.nations
    rcases s2 with ⟨ns2, hs2⟩
    simp only at hh
    rw [hh]
    exact hkey

/-- C3 counterexample state: one nation holding one territory. -/
def c3State : GameState :=
  ⟨[⟨"Nation 1", "Test User", "aabbcc"⟩], [⟨"CA", "Test User", 3⟩]⟩

/-- C3 counterexample: updating the only holding of a nation to army size -1
with cascade deletion enabled deletes the holding row, after which the owner
has zero remaining holdings, yet the nation row survives and the
nation-removed flag is false — the cascade runs only when the new size is
exactly 0, not for every newSize <= 0 as claimed. -/
theorem c3_negative_size_skips_cascade :
    updateHoldingArmySize c3State "CA" (-1) true =
      .ok (⟨[⟨"Nation 1", "Test User", "aabbcc"⟩], []⟩, false) ∧
      playerHoldingsCount ⟨[⟨"Nation 1", "Test User", "aabbcc"⟩], []⟩ "Test User" = 0 := by
  constructor
  · decide
  · decide

/-- C3 (amended): the holding-ledger update fails with no-defending-nation
when the territory has no owning row; otherwise it succeeds, and: a positive
newSize updates the army size in place (nations untouched, nothing removed);
a nonpositive newSize deletes the holding row; other territories are never
touched; a nation is removed exactly when newSize is exactly 0, the cascade
flag is set and the owner then has zero remaining holdings (in particular a
negative newSize never removes a nation); the returned flag reports the
removal. -/
theorem c3_holding_ledger_update (s : GameState) (terr : String) (size : Int)
    (cascade : Bool) :
    (findHolding s terr = none →
      updateHoldingArmySize s terr size cascade = .error .noDefendingNation) ∧
    (∀ h, findHolding s terr = some h →
      ∀ e, updateHoldingArmySize s terr size cascade ≠ .error e) ∧
    (∀ h s2 removed, findHolding s terr = some h →
      updateHoldingArmySize s terr size cascade = .ok (s2, removed) →
      (0 < size → findHolding s2 terr = some { h with armySize := size } ∧
        s2.nations = s.nations ∧ removed = false) ∧
      (size ≤ 0 → findHolding s2 terr = none) ∧
      (∀ t2, t2 ≠ terr → findHolding s2 t2 = findHolding s t2) ∧
      (removed = true ↔
        size = 0 ∧ cascade = true ∧ playerHoldingsCount s2 h.player = 0) ∧
      s2.nations = (if removed = true then s.nations.filter fun n => !(n.player == h.player)
        else s.nations) ∧
      (size < 0 → removed = false ∧ s2.nations = s.nations)) := by
  refine ⟨?_, ?_, ?_⟩
  · intro hf
    simp only [updateHoldingArmySize, hf]
  · intro h hf e
    simp only [updateHoldingArmySize, hf]
    by_cases hsz : 0 < size
    · simp [hsz]
    · simp only [if_neg hsz]
      split
      · split <;> simp
      · simp
  · intro h s2 removed hf hok
    simp only [updateHoldingArmySize, hf] at hok
    by_cases hsz : 0 < size
    · rw [if_pos hsz] at hok
      obtain ⟨hs2, hrem⟩ : (⟨s.nations, s.holdings.map fun h2 =>
          if h2.territory == terr then { h2 with armySize := size } else h2⟩ : GameState)
            = s2 ∧ false = removed := by
        have := Except.ok.inj hok
        exact ⟨congrArg Prod.fst this, congrArg Prod.snd this⟩
      subst hs2
      subst hrem
      refine ⟨fun _ => ⟨find?_update_self hf size, rfl, rfl⟩, ?_, ?_, ?_, ?_, ?_⟩
      · intro h0; omega
      · intro t2 ht2
        exact find?_update_other ht2 size
      · constructor
        · intro hc; cases hc
        · intro hc; omega
      · simp
      · intro h0; omega
    · rw [if_neg hsz] at hok
      have hsz0 : size ≤ 0 := by omega
      by_cases hz : size = 0 ∧ cascade = true
      · rw [if_pos hz] at hok
        by_cases hcount : ((s.holdings.filter fun h2 => !(h2.territory == terr)).filter
            fun h2 => h2.player == h.player).length = 0
        · rw [if_pos hcount] at hok
          obtain ⟨hs2, hrem⟩ : (⟨s.nations.filter fun n => !(n.player == h.player),
              s.holdings.filter fun h2 => !(h2.territory == terr)⟩ : GameState) = s2 ∧
                true = removed := by
            have := Except.ok.inj hok
            exact ⟨congrArg Prod.fst this, congrArg Prod.snd this⟩
          subst hs2
          subst hrem
          refine ⟨fun h0 => absurd h0 hsz, fun _ => find?_filter_self _ _, ?_, ?_, ?_, ?_⟩
          · intro t2 ht2
            exact find?_filter_other ht2
          · exact ⟨fun _ => ⟨hz.1, hz.2, hcount⟩, fun _ => rfl⟩
          · simp
          · intro h0; omega
        · rw [if_neg hcount] at hok
          obtain ⟨hs2, hrem⟩ : (⟨s.nations,
              s.holdings.filter fun h2 => !(h2.territory == terr)⟩ : GameState) = s2 ∧
                false = removed := by
            have := Except.ok.inj hok
            exact ⟨congrArg Prod.fst this, congrArg Prod.snd this⟩
          subst hs2
          subst hrem
          refine ⟨fun h0 => absurd h0 hsz, fun _ => find?_filter_self _ _, ?_, ?_, ?_, ?_⟩
          · intro t2 ht2
            exact find?_filter_other ht2
          · refine ⟨fun hc => Bool.noConfusion hc, fun hc => absurd hc.2.2 hcount⟩
          · simp
          · intro _; exact ⟨rfl, rfl⟩
      · rw [if_neg hz] at hok
        obtain ⟨hs2, hrem⟩ : (⟨s.nations,
            s.holdings.filter fun h2 => !(h2.territory == terr)⟩ : GameState) = s2 ∧
              false = removed := by
          have := Except.ok.inj hok
          exact ⟨congrArg Prod.fst this, congrArg Prod.snd this⟩
        subst hs2
        subst hrem
        refine ⟨fun h0 => absurd h0 hsz, fun _ => find?_filter_self _ _, ?_, ?_, ?_, ?_⟩
        · intro t2 ht2
          exact find?_filter_other ht2
        · refine ⟨fun hc => Bool.noConfusion hc, fun hc => absurd ⟨hc.1, hc.2.1⟩ hz⟩
        · simp
        · intro _; exact ⟨rfl, rfl⟩

theorem c3_holding_ledger_update_witness :
    (findHolding c3State "CA" = some ⟨"CA", "Test User", 3⟩) ∧
      (updateHoldingArmySize c3State "CA" 0 true =
        .ok (⟨[], []⟩, true)) ∧
      (findHolding (⟨[], []⟩ : GameState) "CA" = none ∧
        ((true : Bool) = true ↔ (0 : Int) = 0 ∧ (true : Bool) = true ∧
          playerHoldingsCount (⟨[], []⟩ : GameState) "Test User" = 0)) := by
  refine ⟨by decide, by decide, ?_, ?_⟩
  · exact ((c3_holding_ledger_update c3State "CA" 0 true).2.2 ⟨"CA", "Test User", 3⟩
      ⟨[], []⟩ true (by decide) (by decide)).2.1 (by decide)
  · exact ((c3_holding_ledger_update c3State "CA" 0 true).2.2 ⟨"CA", "Test User", 3⟩
      ⟨[], []⟩ true (by decide) (by decide)).2.2.2.1

theorem c2_dieroll_and_loss_bounds_witness :
    ∃ L : Int, attackCalculation 3 2 17 = .ok (17, L) ∧
      1 ≤ (17 : Int) ∧ (17 : Int) ≤ 20 ∧ -3 ≤ L ∧ (L < 0 → -L ≤ 3) ∧
      ((17 : Int) > (2 - 3) * 2 + 10 → 1 ≤ L ∧ L ≤ 2) :=
  c2_dieroll_and_loss_bounds 3 2 17 (by decide) (by decide) (by decide) (by decide)

/-! ## C7: the raise action -/

/-- C7: with a registered user holding the resolved territory at army size n
(positive, as every persisted holding is), the raise action fails with
max-armies-reached when n equals the configured cap, leaving the state
unchanged; otherwise it commits the holding at exactly n + 1, touches no
other holding, and deletes no holding and no nation. -/
theorem c7_raise_increment (cfg : Config) (s : GameState) (user territory : String)
    (t : Territory) (h : Holding) (hu : user ≠ "") (hreg : hasNation s user = true)
    (hterr : territory ≠ "") (hres : resolveTerritory cfg territory = some t)
    (hfind : findHoldingOf s t.abbreviation user = some h)
    (hfindT : findHolding s t.abbreviation = some h) (hpos : 0 < h.armySize) :
    (h.armySize = cfg.maxArmiesPerTerritory →
      raiseAction cfg s user territory = .error .maxArmiesReached ∧
        commitState s (raiseAction cfg s user territory) = s) ∧
    (h.armySize ≠ cfg.maxArmiesPerTerritory →
      raiseAction cfg s user territory = .ok ⟨s.nations, s.holdings.map fun h2 =>
        if h2.territory == t.abbreviation then { h2 with armySize := h.armySize + 1 }
        else h2⟩ ∧
      findHolding ⟨s.nations, s.holdings.map fun h2 =>
          if h2.territory == t.abbreviation then { h2 with armySize := h.armySize + 1 }
          else h2⟩ t.abbreviation = some { h with armySize := h.armySize + 1 } ∧
      (∀ t2, t2 ≠ t.abbreviation →
        findHolding ⟨s.nations, s.holdings.map fun h2 =>
          if h2.territory == t.abbreviation then { h2 with armySize := h.armySize + 1 }
          else h2⟩ t2 = findHolding s t2) ∧
      (s.holdings.map fun h2 =>
        if h2.territory == t.abbreviation then { h2 with armySize := h.armySize + 1 }
        else h2).length = s.holdings.length) := by
  have hval : validateUser s user = none := validateUser_none hu hreg
  constructor
  · intro hcap
    have herr : raiseAction cfg s user territory = .error .maxArmiesReached := by
      simp only [raiseAction, hval, hres, hfind]
      rw [if_neg hterr, if_pos hcap]
    exact ⟨herr, by rw [herr]; rfl⟩
  · intro hcap
    have hupd : updateHoldingArmySize s t.abbreviation (h.armySize + 1) false =
        .ok (⟨s.nations, s.holdings.map fun h2 =>
          if h2.territory == t.abbreviation then { h2 with armySize := h.armySize + 1 }
          else h2⟩, false) := by
      simp only [updateHoldingArmySize, hfindT]
      rw [if_pos (show (0 : Int) < h.armySize + 1 by omega)]
    refine ⟨?_, ?_, ?_, ?_⟩
    · simp only [raiseAction, hval, hres, hfind]
      rw [if_neg hterr, if_neg hcap, hupd]
    · exact find?_update_self hfindT (h.armySize + 1)
    · intro t2 ht2
      exact find?_update_other ht2 (h.armySize + 1)
    · exact List.length_map _ _

/-- State for the C7 witness: one nation holding California at 3 armies. -/
def c7State : GameState :=
  ⟨[⟨"Nation 1", "Test User", "00ff00"⟩], [⟨"CA", "Test User", 3⟩]⟩

theorem c7_raise_increment_witness :
    raiseAction testingConfig c7State "Test User" "CA" =
      .ok ⟨c7State.nations, c7State.holdings.map fun h2 =>
        if h2.territory == "CA" then { h2 with armySize := 3 + 1 } else h2⟩ ∧
    findHolding ⟨c7State.nations, c7State.holdings.map fun h2 =>
        if h2.territory == "CA" then { h2 with armySize := 3 + 1 } else h2⟩ "CA" =
      some ⟨"CA", "Test User", 3 + 1⟩ := by
  have hmain := (c7_raise_increment testingConfig c7State "Test User" "CA"
    ⟨"CA", "California", [], ["NV", "OR", "AZ"]⟩ ⟨"CA", "Test User", 3⟩
    (by decide) (by decide) (by decide) (by decide) (by decide) (by decide)
    (by decide)).2 (by decide)
  exact ⟨hmain.1, hmain.2.1⟩

/-! ## C9 and C5: the join action -/

/-- C9: a successful join (fresh player, fresh defaulted nation name, fresh
color, resolvable unoccupied territory, positive configured initial-army
count as the config validation guarantees) commits exactly one new nation
and one new holding at the target territory whose army size is the
configured Config.InitialArmies. -/
theorem c9_join_initial_armies (cfg : Config) (s : GameState)
    (user nation territory color : String) (t : Territory)
    (hu : user ≠ "") (hterr : territory ≠ "")
    (hres : resolveTerritory cfg territory = some t)
    (hn2 : (if nation = "" then user ++ apos ++ "s Nation" else nation) ≠ "")
    (hcolor : color.length = 6 ∨ color.length = 3)
    (hplayer : (s.nations.filter fun n => n.player == user).length = 0)
    (hname : (s.nations.filter fun n =>
      n.countryName == (if nation = "" then user ++ apos ++ "s Nation" else nation)).length
        = 0)
    (hfresh : (s.nations.any fun n =>
      n.countryName == (if nation = "" then user ++ apos ++ "s Nation" else nation) ||
        n.player == user || n.color == color) = false)
    (hterrFresh : (s.holdings.any fun h => h.territory == t.abbreviation) = false)
    (harmies : 0 < cfg.initialArmies) :
    joinAction cfg s user nation territory color =
      .ok ⟨s.nations ++
          [⟨(if nation = "" then user ++ apos ++ "s Nation" else nation), user, color⟩],
        s.holdings ++ [⟨t.abbreviation, user, cfg.initialArmies⟩]⟩ ∧
    findHolding ⟨s.nations ++
          [⟨(if nation = "" then user ++ apos ++ "s Nation" else nation), user, color⟩],
        s.holdings ++ [⟨t.abbreviation, user, cfg.initialArmies⟩]⟩ t.abbreviation =
      some ⟨t.abbreviation, user, cfg.initialArmies⟩ := by
  have hin : insertNation s (if nation = "" then user ++ apos ++ "s Nation" else nation)
      user color = .ok ⟨s.nations ++
        [⟨(if nation = "" then user ++ apos ++ "s Nation" else nation), user, color⟩],
        s.holdings⟩ := by
    rw [insertNation, if_neg (by tauto), if_neg (by tauto), if_neg (by simp [hfresh])]
  have hih : insertHolding ⟨s.nations ++
        [⟨(if nation = "" then user ++ apos ++ "s Nation" else nation), user, color⟩],
        s.holdings⟩ user t.abbreviation cfg.initialArmies =
      .ok ⟨s.nations ++
        [⟨(if nation = "" then user ++ apos ++ "s Nation" else nation), user, color⟩],
        s.holdings ++ [⟨t.abbreviation, user, cfg.initialArmies⟩]⟩ := by
    have hnat : hasNation (⟨s.nations ++
        [⟨(if nation = "" then user ++ apos ++ "s Nation" else nation), user, color⟩],
        s.holdings⟩ : GameState) user = true := by
      simp [hasNation, List.any_append]
    rw [insertHolding, if_neg (by simp [hnat]), if_neg (by simp [hterrFresh]),
      if_neg (by omega)]
  constructor
  · simp only [joinAction, hres, hplayer, hname, hin, hih]
    rw [if_neg hterr, if_neg (lt_irrefl 0), if_neg (lt_irrefl 0)]
  · have hnone : s.holdings.find? (fun h => h.territory == t.abbreviation) = none := by
      rw [List.find?_eq_none]
      intro x hx hpx
      have hany : (s.holdings.any fun h => h.territory == t.abbreviation) = true :=
        List.any_eq_true.2 ⟨x, hx, hpx⟩
      rw [hterrFresh] at hany
      exact Bool.noConfusion hany
    rw [findHolding]
    simp [List.find?_append, hnone]

/-- State for the C9/C5 witnesses: the first player joined California. -/
def joinedState : GameState :=
  ⟨[⟨"Nation 1", "Test User", "00ff00"⟩], [⟨"CA", "Test User", 3⟩]⟩

theorem c9_join_initial_armies_witness :
    joinAction testingConfig joinedState "Test User 2" "Nation 2" "NV" "0000ff" =
      .ok ⟨joinedState.nations ++ [⟨"Nation 2", "Test User 2", "0000ff"⟩],
        joinedState.holdings ++ [⟨"NV", "Test User 2", testingConfig.initialArmies⟩]⟩ ∧
    findHolding ⟨joinedState.nations ++ [⟨"Nation 2", "Test User 2", "0000ff"⟩],
        joinedState.holdings ++ [⟨"NV", "Test User 2", testingConfig.initialArmies⟩]⟩
      "NV" = some ⟨"NV", "Test User 2", testingConfig.initialArmies⟩ :=
  c9_join_initial_armies testingConfig joinedState "Test User 2" "Nation 2" "NV" "0000ff"
    ⟨"NV", "Nevada", [], ["CA", "OR", "UT"]⟩ (by decide) (by decide) (by decide)
    (by decide) (by decide) (by decide) (by decide) (by decide) (by decide) (by decide)

/-- C5: join rejects without any state change.  First, a player who already
has a nation is rejected with player-already-joined (checked before any
write, so the transaction leaves every row unchanged).  Second, a join by a
fresh player and nation into an occupied territory reaches the holding
insert, whose uniqueness violation is translated to
territory-already-occupied and rolls back the whole transaction: the final
state is the original one, so neither the new nation row nor the new holding
row is visible. -/
theorem c5_join_rejections (cfg : Config) (s : GameState)
    (user nation territory color : String) (t : Territory)
    (hterr : territory ≠ "") (hres : resolveTerritory cfg territory = some t) :
    (0 < (s.nations.filter fun n => n.player == user).length →
      joinAction cfg s user nation territory color = .error .playerAlreadyJoined ∧
        commitState s (joinAction cfg s user nation territory color) = s) ∧
    (user ≠ "" →
      (if nation = "" then user ++ apos ++ "s Nation" else nation) ≠ "" →
      (color.length = 6 ∨ color.length = 3) →
      (s.nations.filter fun n => n.player == user).length = 0 →
      (s.nations.filter fun n =>
        n.countryName == (if nation = "" then user ++ apos ++ "s Nation" else nation)).length
          = 0 →
      (s.nations.any fun n =>
        n.countryName == (if nation = "" then user ++ apos ++ "s Nation" else nation) ||
          n.player == user || n.color == color) = false →
      (s.holdings.any fun h => h.territory == t.abbreviation) = true →
      joinAction cfg s user nation territory color = .error .territoryAlreadyOccupied ∧
        commitState s (joinAction cfg s user nation territory color) = s) := by
  constructor
  · intro hjoined
    have herr : joinAction cfg s user nation territory color =
        .error .playerAlreadyJoined := by
      simp only [joinAction, hres]
      rw [if_neg hterr, if_pos hjoined]
    exact ⟨herr, by rw [herr]; rfl⟩
  · intro hu hn2 hcolor hplayer hname hfresh hocc
    have hin : insertNation s (if nation = "" then user ++ apos ++ "s Nation" else nation)
        user color = .ok ⟨s.nations ++
          [⟨(if nation = "" then user ++ apos ++ "s Nation" else nation), user, color⟩],
          s.holdings⟩ := by
      rw [insertNation, if_neg (by tauto), if_neg (by tauto), if_neg (by simp [hfresh])]
    have hih : insertHolding ⟨s.nations ++
          [⟨(if nation = "" then user ++ apos ++ "s Nation" else nation), user, color⟩],
          s.holdings⟩ user t.abbreviation cfg.initialArmies =
        .error .uniqueViolation := by
      have hnat : hasNation (⟨s.nations ++
          [⟨(if nation = "" then user ++ apos ++ "s Nation" else nation), user, color⟩],
          s.holdings⟩ : GameState) user = true := by
        simp [hasNation, List.any_append]
      rw [insertHolding, if_neg (by simp [hnat]), if_pos hocc]
    have herr : joinAction cfg s user nation territory color =
        .error .territoryAlreadyOccupied := by
      simp only [joinAction, hres, hplayer, hname, hin, hih]
      rw [if_neg hterr, if_neg (lt_irrefl 0), if_neg (lt_irrefl 0)]
    exact ⟨herr, by rw [herr]; rfl⟩

theorem c5_join_rejections_witness :
    (joinAction testingConfig joinedState "Test User" "Nation 2" "NV" "0000ff" =
      .error .playerAlreadyJoined ∧
      commitState joinedState
        (joinAction testingConfig joinedState "Test User" "Nation 2" "NV" "0000ff") =
        joinedState) ∧
    (joinAction testingConfig joinedState "Test User 2" "Nation 2" "CA" "0000ff" =
      .error .territoryAlreadyOccupied ∧
      commitState joinedState
        (joinAction testingConfig joinedState "Test User 2" "Nation 2" "CA" "0000ff") =
        joinedState) := by
  constructor
  · exact (c5_join_rejections testingConfig joinedState "Test User" "Nation 2" "NV"
      "0000ff" ⟨"NV", "Nevada", [], ["CA", "OR", "UT"]⟩ (by decide) (by decide)).1
      (by decide)
  · exact (c5_join_rejections testingConfig joinedState "Test User 2" "Nation 2" "CA"
      "0000ff" ⟨"CA", "California", [], ["NV", "OR", "AZ"]⟩ (by decide) (by decide)).2
      (by decide) (by decide) (by decide) (by decide) (by decide) (by decide) (by decide)

/-! ## C6: attack mutates exactly one side -/

/-- A holding-ledger update leaves every territory other than the updated
one unchanged. -/
theorem updateHolding_frame {s s2 : GameState} {terr : String} {size : Int}
    {casc r : Bool} (hok : updateHoldingArmySize s terr size casc = .ok (s2, r)) :
    ∀ t2, t2 ≠ terr → findHolding s2 t2 = findHolding s t2 := by
  obtain ⟨h, hf, hcase⟩ := updateHolding_inv hok
  intro t2 ht2
  rcases hcase with ⟨hsz, hh, hn, hr⟩ | ⟨hsz, hh, hn⟩
  · rw [findHolding, hh]
    exact find?_update_other ht2 size
  · rw [findHolding, hh]
    exact find?_filter_other ht2

/-- A holding-ledger update never changes the owning nation or territory of
a surviving holding. -/
theorem updateHolding_ownership {s s2 : GameState} {terr : String} {size : Int}
    {casc r : Bool} (hok : updateHoldingArmySize s terr size casc = .ok (s2, r)) :
    ∀ t2 h2, findHolding s2 t2 = some h2 →
      ∃ h1, findHolding s t2 = some h1 ∧ h1.player = h2.player ∧
        h1.territory = h2.territory := by
  obtain ⟨h, hf, hcase⟩ := updateHolding_inv hok
  intro t2 h2 hf2
  by_cases ht2 : t2 = terr
  · subst ht2
    rcases hcase with ⟨hsz, hh, hn, hr⟩ | ⟨hsz, hh, hn⟩
    · rw [findHolding, hh, find?_update_self hf size] at hf2
      exact ⟨h, hf, by rw [← Option.some.inj hf2], by rw [← Option.some.inj hf2]⟩
    · rw [findHolding, hh, find?_filter_self] at hf2
      exact Option.noConfusion hf2
  · have hfr : findHolding s2 t2 = findHolding s t2 := by
      rcases hcase with ⟨hsz, hh, hn, hr⟩ | ⟨hsz, hh, hn⟩
      · rw [findHolding, hh]
        exact find?_update_other ht2 size
      · rw [findHolding, hh]
        exact find?_filter_other ht2
    exact ⟨h2, by rw [← hfr, hf2], rfl, rfl⟩

/-- C6: a successfully completed attack mutates at most one side's holding:
when the computed loss is positive only the defending territory's holding
can change, otherwise only the attacking territory's holding can change; in
either case every other territory's holding (the losing side's included) is
untouched, and every holding that exists afterwards already existed with the
same owning nation and territory — ownership never changes. -/
theorem c6_attack_single_mutation (cfg : Config) (s : GameState)
    (user aT dT : String) (atk dfd : Territory) (x a d L : Int)
    (s2 : GameState) (res : AttackResult)
    (hra : resolveTerritory cfg aT = some atk)
    (hrd : resolveTerritory cfg dT = some dfd)
    (hA : (match findHoldingOf s atk.abbreviation user with
      | none => 0
      | some h => h.armySize) = a)
    (hD : (match findHolding s dfd.abbreviation with
      | none => 0
      | some h => h.armySize) = d)
    (hL : attackCalculation a d x = .ok (x, L))
    (hok : attackAction cfg s user aT dT x = .ok (s2, res)) :
    (0 < L → ∀ t2, t2 ≠ dfd.abbreviation → findHolding s2 t2 = findHolding s t2) ∧
    (¬ 0 < L → ∀ t2, t2 ≠ atk.abbreviation → findHolding s2 t2 = findHolding s t2) ∧
    (∀ t2 h2, findHolding s2 t2 = some h2 →
      ∃ h1, findHolding s t2 = some h1 ∧ h1.player = h2.player ∧
        h1.territory = h2.territory) := by
  rw [attackAction] at hok
  cases hval : validateUser s user with
  | some e =>
    rw [hval] at hok
    exact Except.noConfusion hok
  | none =>
  simp only [hval, hra, hrd] at hok
  by_cases hfe : atk.abbreviation = dfd.abbreviation
  · rw [if_pos hfe] at hok
    exact Except.noConfusion hok
  rw [if_neg hfe] at hok
  cases hnb : isNeighboring cfg atk dT with
  | none =>
    rw [hnb] at hok
    exact Except.noConfusion hok
  | some nb =>
  simp only [hnb] at hok
  cases nb with
  | false => exact Except.noConfusion hok
  | true =>
  simp only at hok
  by_cases hctr : cfg.doCounterattack = true
  · rw [if_pos hctr] at hok
    exact Except.noConfusion hok
  rw [if_neg hctr] at hok
  rw [hA] at hok
  by_cases ha0 : a = 0
  · rw [if_pos ha0] at hok
    exact Except.noConfusion hok
  rw [if_neg ha0] at hok
  rw [hD] at hok
  by_cases hd0 : d = 0
  · rw [if_pos hd0] at hok
    exact Except.noConfusion hok
  rw [if_neg hd0] at hok
  rw [hL] at hok
  simp only at hok
  by_cases hLpos : 0 < L
  · rw [if_pos hLpos] at hok
    cases hupd : updateHoldingArmySize s dfd.abbreviation (d - min L d) true with
    | error e =>
      rw [hupd] at hok
      exact Except.noConfusion hok
    | ok pr =>
      obtain ⟨s2x, rx⟩ := pr
      simp only [hupd] at hok
      obtain rfl : s2x = s2 := congrArg Prod.fst (Except.ok.inj hok)
      exact ⟨fun _ => updateHolding_frame hupd, fun hc => absurd hLpos hc,
        updateHolding_ownership hupd⟩
  · rw [if_neg hLpos] at hok
    cases hupd : updateHoldingArmySize s atk.abbreviation (a - min (-L) a) true with
    | error e =>
      rw [hupd] at hok
      exact Except.noConfusion hok
    | ok pr =>
      obtain ⟨s2x, rx⟩ := pr
      simp only [hupd] at hok
      obtain rfl : s2x = s2 := congrArg Prod.fst (Except.ok.inj hok)
      exact ⟨fun hc => absurd hc hLpos, fun _ => updateHolding_frame hupd,
        updateHolding_ownership hupd⟩

/-- State for the C6 witness: two nations on neighboring territories. -/
def twoNationState : GameState :=
  ⟨[⟨"Nation 1", "Test User", "00ff00"⟩, ⟨"Nation 2", "Test User 2", "0000ff"⟩],
    [⟨"CA", "Test User", 3⟩, ⟨"NV", "Test User 2", 3⟩]⟩

theorem c6_attack_single_mutation_witness :
    findHolding (commitState twoNationState
        ((attackAction testingConfig twoNationState "Test User" "CA" "NV" 19).map
          fun r => r.1)) "CA" = findHolding twoNationState "CA" ∧
    findHolding (commitState twoNationState
        ((attackAction testingConfig twoNationState "Test User" "CA" "NV" 19).map
          fun r => r.1)) "UT" = findHolding twoNationState "UT" := by
  have hok : attackAction testingConfig twoNationState "Test User" "CA" "NV" 19 =
      .ok (⟨[⟨"Nation 1", "Test User", "00ff00"⟩],
        [⟨"CA", "Test User", 3⟩]⟩, ⟨19, 3, 3, 3, true⟩) := by decide
  have hmain := c6_attack_single_mutation testingConfig twoNationState "Test User"
    "CA" "NV" ⟨"CA", "California", [], ["NV", "OR", "AZ"]⟩
    ⟨"NV", "Nevada", [], ["CA", "OR", "UT"]⟩ 19 3 3 3
    ⟨[⟨"Nation 1", "Test User", "00ff00"⟩], [⟨"CA", "Test User", 3⟩]⟩ ⟨19, 3, 3, 3, true⟩
    (by decide) (by decide) (by decide) (by decide) (by decide) hok
  constructor
  · rw [hok]
    exact hmain.1 (by decide) "CA" (by decide)
  · rw [hok]
    exact hmain.1 (by decide) "UT" (by decide)

/-! ## C8: move of a full force into an unclaimed territory -/

/-- A list with no matching element has no match to find. -/
theorem any_eq_false_of_find?_eq_none {l : List Holding} {p : Holding → Bool}
    (h : l.find? p = none) : l.any p = false := by
  rw [Bool.eq_false_iff]
  intro hc
  obtain ⟨y, hy, hp⟩ := List.any_eq_true.1 hc
  exact absurd hp (by simpa using List.find?_eq_none.1 h y hy)

/-- C8: with the garrison flag unset, a move with no explicit army count
from the player's own holding of n armies (positive and within the cap, as
the invariants guarantee) to an unclaimed neighboring territory deletes the
source holding and creates a destination holding owned by the same player
with army size exactly n, leaving the nations table unchanged. -/
theorem c8_move_all_unclaimed (cfg : Config) (s : GameState) (user src dest : String)
    (st dt : Territory) (h : Holding) (x : Int)
    (hreg : hasNation s user = true) (hdne : dest ≠ "") (hsd : src ≠ dest)
    (hrs : resolveTerritory cfg src = some st)
    (hrd : resolveTerritory cfg dest = some dt)
    (hnb : isNeighboring cfg st dest = some true)
    (hsrc : findHolding s st.abbreviation = some h) (hhp : h.player = user)
    (hdest : findHolding s dt.abbreviation = none)
    (hflag : cfg.unclaimedTerritoriesHave1Army = false)
    (hn : 0 < h.armySize) (hcap : h.armySize ≤ cfg.maxArmiesPerTerritory) :
    moveAction cfg s user src dest 0 x =
      .ok (⟨s.nations,
        (s.holdings ++ [(⟨dt.abbreviation, user, h.armySize⟩ : Holding)]).filter
          fun h2 => !(h2.territory == st.abbreviation)⟩, ⟨false, false⟩) ∧
    findHolding (⟨s.nations,
        (s.holdings ++ [(⟨dt.abbreviation, user, h.armySize⟩ : Holding)]).filter
          fun h2 => !(h2.territory == st.abbreviation)⟩ : GameState)
      st.abbreviation = none ∧
    findHolding (⟨s.nations,
        (s.holdings ++ [(⟨dt.abbreviation, user, h.armySize⟩ : Holding)]).filter
          fun h2 => !(h2.territory == st.abbreviation)⟩ : GameState)
      dt.abbreviation = some ⟨dt.abbreviation, user, h.armySize⟩ := by
  have habne : ¬ st.abbreviation = dt.abbreviation := by
    intro hc
    rw [hc, hdest] at hsrc
    exact Option.noConfusion hsrc
  have hdtne : dt.abbreviation ≠ st.abbreviation := fun hc => habne hc.symm
  have hfresh : (s.holdings.any fun h2 => h2.territory == dt.abbreviation) = false :=
    any_eq_false_of_find?_eq_none hdest
  have hins : insertHolding s user dt.abbreviation h.armySize =
      .ok ⟨s.nations,
        s.holdings ++ [(⟨dt.abbreviation, user, h.armySize⟩ : Holding)]⟩ := by
    rw [insertHolding, if_neg (by simp [hreg]), if_neg (by simp [hfresh]),
      if_neg (by omega)]
  have hsrc1 : findHolding (⟨s.nations,
      s.holdings ++ [(⟨dt.abbreviation, user, h.armySize⟩ : Holding)]⟩ : GameState)
        st.abbreviation = some h := by
    rw [findHolding] at hsrc ⊢
    simp only [List.find?_append, hsrc]
    rfl
  have hmem2 : (⟨dt.abbreviation, user, h.armySize⟩ : Holding) ∈
      (((s.holdings ++ [(⟨dt.abbreviation, user, h.armySize⟩ : Holding)]).filter
        fun h2 => !(h2.territory == st.abbreviation)).filter
          fun h2 => h2.player == h.player) := by
    refine List.mem_filter.2 ⟨List.mem_filter.2 ⟨?_, ?_⟩, ?_⟩
    · exact List.mem_append_right _ (List.mem_singleton.2 rfl)
    · simp [hdtne]
    · simp [hhp]
  have hcount : ¬ ((((s.holdings ++ [(⟨dt.abbreviation, user, h.armySize⟩ : Holding)]).filter
      fun h2 => !(h2.territory == st.abbreviation)).filter
        fun h2 => h2.player == h.player).length = 0) := by
    intro hc
    rw [List.length_eq_zero] at hc
    rw [hc] at hmem2
    exact List.not_mem_nil _ hmem2
  have hupd : updateHoldingArmySize (⟨s.nations,
      s.holdings ++ [(⟨dt.abbreviation, user, h.armySize⟩ : Holding)]⟩ : GameState)
        st.abbreviation (h.armySize - h.armySize) true =
      .ok (⟨s.nations,
        (s.holdings ++ [(⟨dt.abbreviation, user, h.armySize⟩ : Holding)]).filter
          fun h2 => !(h2.territory == st.abbreviation)⟩, false) := by
    simp only [updateHoldingArmySize, hsrc1]
    rw [if_neg (by omega)]
    rw [if_pos]
    · rw [if_neg hcount]
    · exact ⟨by omega, trivial⟩
  refine ⟨?_, ?_, ?_⟩
  · simp only [moveAction]
    rw [if_neg (not_or.2 ⟨hdne, hsd⟩)]
    simp only [hrs, hrd, hnb, hsrc, hdest, hflag, lt_self_iff_false, false_and,
      if_false, le_refl, if_true, hhp, not_true, Bool.false_eq_true, and_false,
      zero_add]
    rw [if_neg (by omega), if_pos ⟨trivial, hn⟩]
    simp only [hins, hupd]
    rw [decide_eq_false (show ¬ h.armySize = 0 by omega)]
  · rw [findHolding]
    exact find?_filter_self _ _
  · rw [findHolding]
    have hother := find?_filter_other (l := s.holdings ++
      [⟨dt.abbreviation, user, h.armySize⟩]) hdtne
    rw [hother]
    rw [findHolding] at hdest
    simp [List.find?_append, hdest]

/-- State for the C8 witness: one nation holding California with 3 armies. -/
def c8State : GameState :=
  ⟨[⟨"Nation 1", "Test User", "00ff00"⟩], [⟨"CA", "Test User", 3⟩]⟩

theorem c8_move_all_unclaimed_witness :
    moveAction testingConfig c8State "Test User" "CA" "NV" 0 7 =
      .ok (⟨c8State.nations,
        (c8State.holdings ++ [(⟨"NV", "Test User", 3⟩ : Holding)]).filter
          fun h2 => !(h2.territory == "CA")⟩, ⟨false, false⟩) ∧
    findHolding (⟨c8State.nations,
        (c8State.holdings ++ [(⟨"NV", "Test User", 3⟩ : Holding)]).filter
          fun h2 => !(h2.territory == "CA")⟩ : GameState) "CA" = none ∧
    findHolding (⟨c8State.nations,
        (c8State.holdings ++ [(⟨"NV", "Test User", 3⟩ : Holding)]).filter
          fun h2 => !(h2.territory == "CA")⟩ : GameState) "NV" =
      some ⟨"NV", "Test User", 3⟩ :=
  c8_move_all_unclaimed testingConfig c8State "Test User" "CA" "NV"
    ⟨"CA", "California", [], ["NV", "OR", "AZ"]⟩ ⟨"NV", "Nevada", [], ["CA", "OR", "UT"]⟩
    ⟨"CA", "Test User", 3⟩ 7 (by decide) (by decide) (by decide) (by decide) (by decide)
    (by decide) (by decide) (by decide) (by decide) (by decide) (by decide) (by decide)

/-! ## C4: the holdings invariants are preserved by every action -/

/-- The invariants depend only on the holdings. -/
theorem invariant_of_holdings_eq {cfg : Config} {s s2 : GameState}
    (hinv : Invariant cfg s) (he : s2.holdings = s.holdings) : Invariant cfg s2 := by
  rw [Invariant, he]
  exact hinv

/-- A committed join preserves the holdings invariants, provided the
configured initial-army count is positive and within the cap. -/
theorem join_preserves {cfg : Config} {s s2 : GameState} {u n t c : String}
    (hcfg1 : 0 < cfg.initialArmies) (hcfg2 : cfg.initialArmies ≤ cfg.maxArmiesPerTerritory)
    (hinv : Invariant cfg s) (hok : joinAction cfg s u n t c = .ok s2) :
    Invariant cfg s2 := by
  simp only [joinAction] at hok
  by_cases h1 : t = ""
  · rw [if_pos h1] at hok
    exact Except.noConfusion hok
  rw [if_neg h1] at hok
  cases hres : resolveTerritory cfg t with
  | none =>
    rw [hres] at hok
    exact Except.noConfusion hok
  | some T =>
  simp only [hres] at hok
  by_cases h2 : 0 < (s.nations.filter fun n2 => n2.player == u).length
  · rw [if_pos h2] at hok
    exact Except.noConfusion hok
  rw [if_neg h2] at hok
  by_cases h3 : 0 < (s.nations.filter fun n2 =>
    n2.countryName == (if n = "" then u ++ apos ++ "s Nation" else n)).length
  · rw [if_pos h3] at hok
    exact Except.noConfusion hok
  rw [if_neg h3] at hok
  split at hok
  · exact Except.noConfusion hok
  · rename_i s1 hin
    split at hok
    · exact Except.noConfusion hok
    · exact Except.noConfusion hok
    · rename_i s2x hih
      obtain rfl : s2x = s2 := Except.ok.inj hok
      obtain ⟨hs1eq, _⟩ := insertNation_inv hin
      obtain ⟨hnat, hfresh, hpos, hs2eq⟩ := insertHolding_inv hih
      have hinv1 : Invariant cfg s1 :=
        invariant_of_holdings_eq hinv (by rw [hs1eq])
      rw [hs2eq]
      exact invariant_append hinv1 hfresh hcfg1 hcfg2 s1.nations

/-- A committed color change preserves the holdings invariants. -/
theorem color_preserves {cfg : Config} {s s2 : GameState} {u c : String}
    (hinv : Invariant cfg s) (hok : colorAction s u c = .ok s2) :
    Invariant cfg s2 :=
  invariant_of_holdings_eq hinv (colorAction_inv hok)

/-- A committed raise preserves the holdings invariants. -/
theorem raise_preserves {cfg : Config} {s s2 : GameState} {u t : String}
    (hinv : Invariant cfg s) (hok : raiseAction cfg s u t = .ok s2) :
    Invariant cfg s2 := by
  rw [raiseAction] at hok
  cases hval : validateUser s u with
  | some e =>
    rw [hval] at hok
    exact Except.noConfusion hok
  | none =>
  simp only [hval] at hok
  by_cases h1 : t = ""
  · rw [if_pos h1] at hok
    exact Except.noConfusion hok
  rw [if_neg h1] at hok
  cases hres : resolveTerritory cfg t with
  | none =>
    rw [hres] at hok
    exact Except.noConfusion hok
  | some T =>
  simp only [hres] at hok
  cases hfind : findHoldingOf s T.abbreviation u with
  | none =>
    rw [hfind] at hok
    exact Except.noConfusion hok
  | some h =>
  simp only [hfind] at hok
  by_cases hc : h.armySize = cfg.maxArmiesPerTerritory
  · rw [if_pos hc] at hok
    exact Except.noConfusion hok
  rw [if_neg hc] at hok
  split at hok
  · exact Except.noConfusion hok
  · rename_i s2x rx hupd
    obtain rfl : s2x = s2 := Except.ok.inj hok
    have hmem := List.mem_of_find?_eq_some hfind
    have hbound := hinv.1 h hmem
    exact invariant_updateHolding hinv (fun _ => by omega) hupd

/-- A committed attack preserves the holdings invariants. -/
theorem attack_preserves {cfg : Config} {s : GameState} {u aT dT : String} {x : Int}
    {pr : GameState × AttackResult} (hinv : Invariant cfg s)
    (hok : attackAction cfg s u aT dT x = .ok pr) : Invariant cfg pr.1 := by
  obtain ⟨s2, res⟩ := pr
  rw [attackAction] at hok
  cases hval : validateUser s u with
  | some e =>
    rw [hval] at hok
    exact Except.noConfusion hok
  | none =>
  simp only [hval] at hok
  cases hra : resolveTerritory cfg aT with
  | none =>
    rw [hra] at hok
    exact Except.noConfusion hok
  | some atk =>
  simp only [hra] at hok
  cases hrd : resolveTerritory cfg dT with
  | none =>
    rw [hrd] at hok
    exact Except.noConfusion hok
  | some dfd =>
  simp only [hrd] at hok
  by_cases hfe : atk.abbreviation = dfd.abbreviation
  · rw [if_pos hfe] at hok
    exact Except.noConfusion hok
  rw [if_neg hfe] at hok
  cases hnb : isNeighboring cfg atk dT with
  | none =>
    rw [hnb] at hok
    exact Except.noConfusion hok
  | some nb =>
  simp only [hnb] at hok
  cases nb with
  | false => exact Except.noConfusion hok
  | true =>
  simp only at hok
  by_cases hctr : cfg.doCounterattack = true
  · rw [if_pos hctr] at hok
    exact Except.noConfusion hok
  rw [if_neg hctr] at hok
  cases hfa : findHoldingOf s atk.abbreviation u with
  | none =>
    simp only [hfa] at hok
    rw [if_pos trivial] at hok
    exact Except.noConfusion hok
  | some ah =>
  simp only [hfa] at hok
  by_cases ha0 : ah.armySize = 0
  · rw [if_pos ha0] at hok
    exact Except.noConfusion hok
  rw [if_neg ha0] at hok
  cases hfd : findHolding s dfd.abbreviation with
  | none =>
    simp only [hfd] at hok
    rw [if_pos trivial] at hok
    exact Except.noConfusion hok
  | some dh =>
  simp only [hfd] at hok
  by_cases hd0 : dh.armySize = 0
  · rw [if_pos hd0] at hok
    exact Except.noConfusion hok
  rw [if_neg hd0] at hok
  cases hcalc : attackCalculation ah.armySize dh.armySize x with
  | error e =>
    rw [hcalc] at hok
    exact Except.noConfusion hok
  | ok r =>
  obtain ⟨roll, L⟩ := r
  simp only [hcalc] at hok
  have hab := hinv.1 ah (List.mem_of_find?_eq_some hfa)
  have hdb := hinv.1 dh (List.mem_of_find?_eq_some hfd)
  by_cases hLpos : 0 < L
  · rw [if_pos hLpos] at hok
    split at hok
    · exact Except.noConfusion hok
    · rename_i s2x rx hupd
      obtain rfl : s2x = s2 := congrArg Prod.fst (Except.ok.inj hok)
      refine invariant_updateHolding hinv (fun hp => ?_) hupd
      have h1 : min L dh.armySize ≤ dh.armySize := min_le_right _ _
      have h2 : 0 ≤ min L dh.armySize := le_min (by omega) (by omega)
      omega
  · rw [if_neg hLpos] at hok
    split at hok
    · exact Except.noConfusion hok
    · rename_i s2x rx hupd
      obtain rfl : s2x = s2 := congrArg Prod.fst (Except.ok.inj hok)
      refine invariant_updateHolding hinv (fun hp => ?_) hupd
      have h1 : min (-L) ah.armySize ≤ ah.armySize := min_le_right _ _
      have h2 : 0 ≤ min (-L) ah.armySize := le_min (by omega) (by omega)
      omega

/-- A committed move preserves the holdings invariants. -/
theorem move_preserves {cfg : Config} {s : GameState} {u src dest : String}
    {armies x : Int} {pr : GameState × MoveResult} (hinv : Invariant cfg s)
    (hok : moveAction cfg s u src dest armies x = .ok pr) : Invariant cfg pr.1 := by
  obtain ⟨s2, mres⟩ := pr
  simp only [moveAction] at hok
  by_cases h1 : dest = "" ∨ src = dest
  · rw [if_pos h1] at hok
    exact Except.noConfusion hok
  rw [if_neg h1] at hok
  cases hrs : resolveTerritory cfg src with
  | none =>
    rw [hrs] at hok
    exact Except.noConfusion hok
  | some st =>
  simp only [hrs] at hok
  cases hrd : resolveTerritory cfg dest with
  | none =>
    rw [hrd] at hok
    exact Except.noConfusion hok
  | some dt =>
  simp only [hrd] at hok
  cases hnb : isNeighboring cfg st dest with
  | none =>
    rw [hnb] at hok
    exact Except.noConfusion hok
  | some nb =>
  simp only [hnb] at hok
  cases hsf : findHolding s st.abbreviation with
  | none =>
    rw [hsf] at hok
    exact Except.noConfusion hok
  | some sh =>
  simp only [hsf] at hok
  by_cases h2 : 0 < armies ∧ sh.armySize < armies
  · rw [if_pos h2] at hok
    exact Except.noConfusion hok
  rw [if_neg h2] at hok
  have hshb := hinv.1 sh (List.mem_of_find?_eq_some hsf)
  set A := if armies ≤ 0 then sh.armySize else armies with hA
  have hA0 : 0 < A := by
    rw [hA]
    split <;> omega
  cases hdf : findHolding s dt.abbreviation with
  | none =>
    simp only [hdf] at hok
    by_cases h3 : ¬ sh.player = u
    · rw [if_pos h3] at hok
      exact Except.noConfusion hok
    rw [if_neg h3] at hok
    rw [if_neg (by simp)] at hok
    by_cases h5 : cfg.maxArmiesPerTerritory < 0 + A
    · rw [if_pos h5] at hok
      exact Except.noConfusion hok
    rw [if_neg h5] at hok
    split at hok
    · exact Except.noConfusion hok
    · rename_i newDest heqD
      have hDle : newDest ≤ 0 + A := by
        by_cases h6 : True ∧ cfg.unclaimedTerritoriesHave1Army = true
        · rw [if_pos h6] at heqD
          cases hcalc : attackCalculation A 1 x with
          | error e =>
            rw [hcalc] at heqD
            exact Except.noConfusion heqD
          | ok r =>
            obtain ⟨rr, rL⟩ := r
            simp only [hcalc, Except.map] at heqD
            have hval := Except.ok.inj heqD
            by_cases hrL : rL < 0
            · rw [if_pos hrL] at hval
              omega
            · rw [if_neg hrL] at hval
              omega
        · rw [if_neg h6] at heqD
          have hval := Except.ok.inj heqD
          omega
      split at hok
      · exact Except.noConfusion hok
      · rename_i s1 heqS
        have hinv1 : Invariant cfg s1 := by
          by_cases hI1 : True ∧ 0 < newDest
          · rw [if_pos hI1] at heqS
            obtain ⟨hn1, hf1, hp1, he1⟩ := insertHolding_inv heqS
            rw [he1]
            exact invariant_append hinv hf1 hp1 (by omega) s.nations
          · rw [if_neg hI1] at heqS
            by_cases hI2 : 0 < newDest
            · exact absurd ⟨trivial, hI2⟩ hI1
            · rw [if_neg hI2] at heqS
              obtain rfl : s = s1 := Except.ok.inj heqS
              exact hinv
        split at hok
        · exact Except.noConfusion hok
        · rename_i s2x r2 heqU
          obtain rfl : s2x = s2 := congrArg Prod.fst (Except.ok.inj hok)
          exact invariant_updateHolding hinv1 (fun hp => by omega) heqU
  | some dh =>
    simp only [hdf] at hok
    have hdhb := hinv.1 dh (List.mem_of_find?_eq_some hdf)
    by_cases h3 : ¬ sh.player = u
    · rw [if_pos h3] at hok
      exact Except.noConfusion hok
    rw [if_neg h3] at hok
    by_cases h4 : 0 < dh.armySize ∧ ¬ dh.player = u
    · rw [if_pos h4] at hok
      exact Except.noConfusion hok
    rw [if_neg h4] at hok
    by_cases h5 : cfg.maxArmiesPerTerritory < dh.armySize + A
    · rw [if_pos h5] at hok
      exact Except.noConfusion hok
    rw [if_neg h5] at hok
    split at hok
    · exact Except.noConfusion hok
    · rename_i newDest heqD
      have hDle : newDest ≤ dh.armySize + A := by
        by_cases h6 : dh.armySize = 0 ∧ cfg.unclaimedTerritoriesHave1Army = true
        · rw [if_pos h6] at heqD
          cases hcalc : attackCalculation A 1 x with
          | error e =>
            rw [hcalc] at heqD
            exact Except.noConfusion heqD
          | ok r =>
            obtain ⟨rr, rL⟩ := r
            simp only [hcalc, Except.map] at heqD
            have hval := Except.ok.inj heqD
            by_cases hrL : rL < 0
            · rw [if_pos hrL] at hval
              omega
            · rw [if_neg hrL] at hval
              omega
        · rw [if_neg h6] at heqD
          have hval := Except.ok.inj heqD
          omega
      split at hok
      · exact Except.noConfusion hok
      · rename_i s1 heqS
        have hinv1 : Invariant cfg s1 := by
          by_cases hI1 : dh.armySize = 0 ∧ 0 < newDest
          · rw [if_pos hI1] at heqS
            obtain ⟨hn1, hf1, hp1, he1⟩ := insertHolding_inv heqS
            rw [he1]
            exact invariant_append hinv hf1 hp1 (by omega) s.nations
          · rw [if_neg hI1] at heqS
            by_cases hI2 : 0 < newDest
            · rw [if_pos hI2] at heqS
              cases hu2 : updateHoldingArmySize s dt.abbreviation newDest false with
              | error e =>
                rw [hu2] at heqS
                exact Except.noConfusion heqS
              | ok pr3 =>
                obtain ⟨s1x, r3⟩ := pr3
                simp only [hu2, Except.map] at heqS
                obtain rfl : s1x = s1 := Except.ok.inj heqS
                exact invariant_updateHolding hinv (fun _ => by omega) hu2
            · rw [if_neg hI2] at heqS
              obtain rfl : s = s1 := Except.ok.inj heqS
              exact hinv
        split at hok
        · exact Except.noConfusion hok
        · rename_i s2x r2 heqU
          obtain rfl : s2x = s2 := congrArg Prod.fst (Except.ok.inj hok)
          exact invariant_updateHolding hinv1 (fun hp => by omega) heqU

/-- Configuration passing the source's validation (both army values
positive) whose initial-army count exceeds the cap: nothing in the code
cross-checks the two values. -/
def c4BadConfig : Config :=
  ⟨false, 6, 5, false, testTerritories⟩

/-- C4 counterexample: with initialArmies = 6 and cap 5 (a configuration the
source's validation accepts, since it only checks each value is positive), a
join commits a holding of size 6, violating the army-size-at-most-cap
invariant. -/
theorem c4_join_exceeds_cap :
    applyAction c4BadConfig ⟨[], []⟩ (.join "Test User" "Nation 1" "CA" "00ff00") =
      .ok ⟨[⟨"Nation 1", "Test User", "00ff00"⟩], [⟨"CA", "Test User", 6⟩]⟩ ∧
    ¬ Invariant c4BadConfig
      ⟨[⟨"Nation 1", "Test User", "00ff00"⟩], [⟨"CA", "Test User", 6⟩]⟩ := by
  constructor
  · decide
  · decide

/-- C4 (amended): for every configuration whose initial-army count is
positive and at most the per-territory cap (positivity is enforced by the
config validation; the cap bound is not checked anywhere and must be
assumed), every action (join, color, raise, move, attack) that commits
successfully preserves the holdings invariants: every holding row has an
army size strictly greater than 0 and at most the cap, and territory codes
remain unique across holdings. -/
theorem c4_invariants_preserved (cfg : Config) (s s2 : GameState) (act : GameAction)
    (hcfg1 : 0 < cfg.initialArmies)
    (hcfg2 : cfg.initialArmies ≤ cfg.maxArmiesPerTerritory)
    (hinv : Invariant cfg s) (hok : applyAction cfg s act = .ok s2) :
    Invariant cfg s2 := by
  cases act with
  | join u n t c =>
    simp only [applyAction] at hok
    exact join_preserves hcfg1 hcfg2 hinv hok
  | setColor u c =>
    simp only [applyAction] at hok
    exact color_preserves hinv hok
  | raise u t =>
    simp only [applyAction] at hok
    exact raise_preserves hinv hok
  | move u src dest armies roll =>
    simp only [applyAction] at hok
    cases hmv : moveAction cfg s u src dest armies roll with
    | error e =>
      rw [hmv] at hok
      exact Except.noConfusion hok
    | ok pr =>
      rw [hmv] at hok
      simp only [Except.map] at hok
      obtain rfl : pr.1 = s2 := Except.ok.inj hok
      exact move_preserves hinv hmv
  | attack u aT dT roll =>
    simp only [applyAction] at hok
    cases hatk : attackAction cfg s u aT dT roll with
    | error e =>
      rw [hatk] at hok
      exact Except.noConfusion hok
    | ok pr =>
      rw [hatk] at hok
      simp only [Except.map] at hok
      obtain rfl : pr.1 = s2 := Except.ok.inj hok
      exact attack_preserves hinv hatk

theorem c4_invariants_preserved_witness :
    Invariant testingConfig ⟨[⟨"Nation 1", "Test User", "00ff00"⟩],
      [⟨"CA", "Test User", 4⟩]⟩ :=
  c4_invariants_preserved testingConfig
    ⟨[⟨"Nation 1", "Test User", "00ff00"⟩], [⟨"CA", "Test User", 3⟩]⟩
    ⟨[⟨"Nation 1", "Test User", "00ff00"⟩], [⟨"CA", "Test User", 4⟩]⟩
    (.raise "Test User" "CA") (by decide) (by decide) (by decide) (by decide)

/-! ## C10: case-insensitive territory resolution -/

/-- ASCII lowering is idempotent: lowering an uppercase letter gives a
character outside the uppercase range, and other characters are fixed. -/
theorem char_toLower_idem (c : Char) : c.toLower.toLower = c.toLower := by
  by_cases h : c.toNat ≥ 65 ∧ c.toNat ≤ 90
  · obtain ⟨h1, h2⟩ := h
    have hd : c.toNat = 65 ∨ c.toNat = 66 ∨ c.toNat = 67 ∨ c.toNat = 68 ∨ c.toNat = 69 ∨
        c.toNat = 70 ∨ c.toNat = 71 ∨ c.toNat = 72 ∨ c.toNat = 73 ∨ c.toNat = 74 ∨
        c.toNat = 75 ∨ c.toNat = 76 ∨ c.toNat = 77 ∨ c.toNat = 78 ∨ c.toNat = 79 ∨
        c.toNat = 80 ∨ c.toNat = 81 ∨ c.toNat = 82 ∨ c.toNat = 83 ∨ c.toNat = 84 ∨
        c.toNat = 85 ∨ c.toNat = 86 ∨ c.toNat = 87 ∨ c.toNat = 88 ∨ c.toNat = 89 ∨
        c.toNat = 90 := by omega
    have hc := Char.ofNat_toNat c
    rcases hd with h3|h3|h3|h3|h3|h3|h3|h3|h3|h3|h3|h3|h3|h3|h3|h3|h3|h3|h3|h3|h3|h3|h3|
      h3|h3|h3 <;>
      (rw [← hc, h3]; decide)
  · have he : c.toLower = c := by
      simp only [Char.toLower]
      rw [if_neg h]
    rw [he, he]

/-- ASCII lowering of a string is idempotent. -/
theorem lowerStr_idem (s : String) : lowerStr (lowerStr s) = lowerStr s := by
  refine congrArg String.mk ?_
  show (s.data.map Char.toLower).map Char.toLower = s.data.map Char.toLower
  rw [List.map_map]
  exact List.map_congr_left fun a _ => char_toLower_idem a

/-- Matching is invariant under lowercasing the query. -/
theorem matchesQuery_lower (t : Territory) (q : String) :
    matchesQuery t (lowerStr q) = matchesQuery t q := by
  rw [matchesQuery, matchesQuery, lowerStr_idem]

/-- Resolution is invariant under lowercasing the query. -/
theorem resolveTerritory_lower (cfg : Config) (q : String) :
    resolveTerritory cfg (lowerStr q) = resolveTerritory cfg q := by
  rw [resolveTerritory, resolveTerritory]
  congr 1
  funext t
  exact matchesQuery_lower t q

/-- C10 counterexample configuration: two territories whose raw
abbreviation/name/alias strings are all distinct (so the source's uniqueness
validation accepts it) but where the name of the first equals the
abbreviation of the second up to ASCII case. -/
def c10Config : Config :=
  ⟨false, 3, 5, false, [⟨"AA", "foo", [], ["FOO"]⟩, ⟨"FOO", "bar", [], ["AA"]⟩]⟩

/-- C10 counterexample: the query Foo matches the second territory's
abbreviation FOO case-insensitively, yet the resolver returns the first
territory (whose name is foo), because it returns the first match in
configuration order — so the resolver does not always return the matching
territory. -/
theorem c10_first_match_shadows :
    matchesQuery ⟨"FOO", "bar", [], ["AA"]⟩ "Foo" = true ∧
    resolveTerritory c10Config "Foo" = some ⟨"AA", "foo", [], ["FOO"]⟩ ∧
    ¬ (⟨"AA", "foo", [], ["FOO"]⟩ : Territory) = ⟨"FOO", "bar", [], ["AA"]⟩ := by
  refine ⟨by decide, by decide, by decide⟩

/-- C10 (amended): territory resolution is case-insensitive in the query —
resolving the lowercased query succeeds exactly when resolving the original
does and returns the same territory; a query matching no configured
territory's abbreviation, name or alias (up to ASCII case) fails; a resolved
territory is a configured territory matching the query; and the resolver
returns the first matching territory in configuration order, which is "that
territory" whenever at most one configured territory matches the query (in
particular whenever the lowercased keys are disjoint across territories). -/
theorem c10_resolver_case_insensitive (cfg : Config) (q : String) :
    resolveTerritory cfg (lowerStr q) = resolveTerritory cfg q ∧
    (resolveTerritory cfg q = none ↔ ∀ t ∈ cfg.territories, matchesQuery t q = false) ∧
    (∀ t, resolveTerritory cfg q = some t →
      t ∈ cfg.territories ∧ matchesQuery t q = true) ∧
    ((∀ t1 ∈ cfg.territories, ∀ t2 ∈ cfg.territories,
        matchesQuery t1 q = true → matchesQuery t2 q = true → t1 = t2) →
      ∀ t ∈ cfg.territories, matchesQuery t q = true →
        resolveTerritory cfg q = some t) := by
  refine ⟨resolveTerritory_lower cfg q, ?_, ?_, ?_⟩
  · rw [resolveTerritory, List.find?_eq_none]
    constructor
    · intro hall t ht
      have := hall t ht
      simpa using this
    · intro hall t ht
      have := hall t ht
      simp [this]
  · intro t ht
    refine ⟨List.mem_of_find?_eq_some ht, ?_⟩
    have := List.find?_some ht
    simpa using this
  · intro huniq t ht hm
    have hsome : (cfg.territories.find? fun t2 => matchesQuery t2 q).isSome :=
      List.find?_isSome.2 ⟨t, ht, hm⟩
    obtain ⟨t2, ht2⟩ := Option.isSome_iff_exists.1 hsome
    have hm2 : matchesQuery t2 q = true := by
      have := List.find?_some ht2
      simpa using this
    have heq : t2 = t := huniq t2 (List.mem_of_find?_eq_some ht2) t ht hm2 hm
    rw [resolveTerritory, ht2, heq]

theorem c10_resolver_case_insensitive_witness :
    resolveTerritory testingConfig (lowerStr "NEVADA") =
      resolveTerritory testingConfig "NEVADA" ∧
    resolveTerritory testingConfig "NEVADA" =
      some ⟨"NV", "Nevada", [], ["CA", "OR", "UT"]⟩ :=
  ⟨(c10_resolver_case_insensitive testingConfig "NEVADA").1,
    (c10_resolver_case_insensitive testingConfig "NEVADA").2.2.2 (by decide)
      ⟨"NV", "Nevada", [], ["CA", "OR", "UT"]⟩ (by decide) (by decide)⟩

end TerritoriesGame
